import Mathlib

/-! A growable list of owned pointers: `ptrlist.c`, `ptrlist.h` of ptr_list.

Shallow embedding of the C module and proofs about it.

* A handle (`void *`) is a natural number, `0` being the null pointer.
* The heap block behind `l->ptrs` is the list of its slots; `none` is the null
  pointer.  An access to a slot outside the block (or through a null pointer,
  or a call through a null function pointer) is undefined behaviour, and a
  function whose execution has undefined behaviour evaluates to `none`.
* `size_t` is 64 bits wide and a pointer takes 8 bytes (LP64); arithmetic on
  `size_t` values is taken modulo `2 ^ 64`.
* `malloc` / `realloc` take an extra argument, the answer of the allocator: it
  may return `NULL`, or grant the request, in which case the fresh slots hold
  indeterminate values.  As the C library allocators do, it never grants a
  request of more than `PTRDIFF_MAX` bytes.
* The releaser `l->free` is an external function that does not touch the list;
  each call of it is recorded, in order, in the list of calls that
  `plist_clear` and `plist_free` return.
* The list pointer `plist_t *l` is an `Option plist_t` (`none` is `NULL`); an
  operation returns the record as it is after the call.
-/

namespace PtrList

/-! ## Machine model -/

/-- Value of a `void *`; the null pointer is `0`. -/
abbrev Handle := Nat

/-- The null pointer. -/
def NULL : Handle := 0

/-- Status code of `ptrlist.h`. -/
def PLIST_GOOD : Nat := 0

/-- Status code of `ptrlist.h`. -/
def PLIST_NULL_ERR : Nat := 1

/-- Status code of `ptrlist.h`. -/
def PLIST_ALLOC_ERR : Nat := 2

/-- Default capacity, `#define DEF_MAX 10`. -/
def DEF_MAX : Nat := 10

/-- Number of values of `size_t` (`SIZE_MAX + 1`). -/
def SIZE_MOD : Nat := 2 ^ 64

/-- Value of `sizeof(void *)`. -/
def PTR_BYTES : Nat := 8

/-- Largest object size the allocator ever grants. -/
def PTRDIFF_MAX : Nat := 2 ^ 63 - 1

/-- Addition of `size_t` values. -/
def size_add (a b : Nat) : Nat := (a + b) % SIZE_MOD

/-- Subtraction of `size_t` values (wraps around below zero). -/
def size_sub (a b : Nat) : Nat := (a + (SIZE_MOD - b % SIZE_MOD)) % SIZE_MOD

/-- Multiplication of `size_t` values. -/
def size_mul (a b : Nat) : Nat := (a * b) % SIZE_MOD

/-- Content of a heap block of `void *` slots. -/
abbrev Buffer := List Handle

/-- Read of `ptrs[i]`: undefined through a null pointer or outside the block. -/
def load (ptrs : Option Buffer) (i : Nat) : Option Handle :=
  match ptrs with
  | none => none
  | some buf => buf[i]?

/-- Write `ptrs[i] = v`: undefined through a null pointer or outside the block.
The result is the new content of the block. -/
def store (ptrs : Option Buffer) (i : Nat) (v : Handle) : Option Buffer :=
  match ptrs with
  | none => none
  | some buf => if i < buf.length then some (buf.set i v) else none

/-- Call `memmove(ptrs + dst, ptrs + src, bytes)`: both ranges must lie inside
the block; the copy is safe for overlapping ranges. -/
def memmove (ptrs : Option Buffer) (dst src bytes : Nat) : Option Buffer :=
  match ptrs with
  | none => none
  | some buf =>
    let n := bytes / PTR_BYTES
    if src + n ≤ buf.length ∧ dst + n ≤ buf.length then
      some (buf.take dst ++ (buf.drop src).take n ++ buf.drop (dst + n))
    else none

/-- Answer of the allocator to one request: `none` when it returns `NULL`,
`some junk` when it grants the request, `junk k` being the indeterminate value
found in the `k`-th fresh slot. -/
abbrev Alloc := Option (Nat → Handle)

/-- Call `realloc(old, bytes)`. A request above `PTRDIFF_MAX` is never granted.
On success the block keeps its leading content and has `bytes / 8` slots. -/
def realloc (a : Alloc) (old : Option Buffer) (bytes : Nat) : Option Buffer :=
  match a with
  | none => none
  | some junk =>
    if bytes ≤ PTRDIFF_MAX then
      let n := bytes / PTR_BYTES
      let o := old.getD []
      some (o.take n ++ (List.range (n - o.length)).map junk)
    else none

/-- Call `malloc(bytes)`. -/
def malloc (a : Alloc) (bytes : Nat) : Option Buffer :=
  realloc a none bytes

/-! ## The list record -/

/-- A function that can be bound as `l->free`: the static `def_free` of
`ptrlist.c` (which passes a non-null pointer to the C library `free`) or a
function of the caller. -/
inductive FreeFn where
  | def_free : FreeFn
  | user (id : Nat) : FreeFn
deriving DecidableEq, Repr

/-- One invocation `fn(arg)` of a releaser. -/
structure Call where
  fn : FreeFn
  arg : Handle
deriving DecidableEq, Repr

/-- The record `plist_t`. A null function pointer is `none`. -/
structure plist_t where
  ptrs : Option Buffer
  len : Nat
  max : Nat
  free : Option FreeFn
deriving DecidableEq, Repr

/-- Source: `plist_check`. -/
def plist_check (l : Option plist_t) : Bool :=
  match l with
  | none => false
  | some s => s.ptrs.isSome

/-- Source: `plist_alloc`. Returns the status and the record after the call. -/
def plist_alloc (a : Alloc) (s : plist_t) : Nat × plist_t :=
  if s.len < s.max then (PLIST_GOOD, s)
  else
    match realloc a s.ptrs (size_mul (size_mul 2 s.max) PTR_BYTES) with
    | some temp => (PLIST_GOOD, { s with max := size_mul s.max 2, ptrs := some temp })
    | none => (PLIST_ALLOC_ERR, s)

/-- Source: `plist_init`. The record passed in is overwritten field by field. -/
def plist_init (a : Alloc) (l : Option plist_t) (freefn : Option FreeFn) :
    Nat × Option plist_t :=
  match l with
  | none => (PLIST_NULL_ERR, none)
  | some _ =>
    let free := match freefn with
      | none => FreeFn.def_free
      | some f => f
    let ptrs := malloc a (size_mul DEF_MAX PTR_BYTES)
    let ret := if ptrs.isNone then PLIST_ALLOC_ERR else PLIST_GOOD
    (ret, some { free := some free, max := DEF_MAX, len := 0, ptrs := ptrs })

/-- Source: `plist_add`. -/
def plist_add (a : Alloc) (l : Option plist_t) (p : Handle) :
    Option (Nat × Option plist_t) :=
  if !plist_check l || p == NULL then some (PLIST_NULL_ERR, l)
  else
    match l with
    | none => none
    | some s =>
      let r := plist_alloc a s
      if r.1 != 0 then some (PLIST_ALLOC_ERR, some r.2)
      else
        match store r.2.ptrs r.2.len p with
        | none => none
        | some buf =>
          some (PLIST_GOOD, some { r.2 with ptrs := some buf, len := size_add r.2.len 1 })

/-- Source: `plist_ins`. -/
def plist_ins (a : Alloc) (l : Option plist_t) (p : Handle) (i : Nat) :
    Option (Nat × Option plist_t) :=
  if !plist_check l || p == NULL then some (PLIST_NULL_ERR, l)
  else
    match l with
    | none => none
    | some s =>
      if i ≥ s.len then plist_add a l p
      else
        let r := plist_alloc a s
        if r.1 != 0 then some (PLIST_ALLOC_ERR, some r.2)
        else
          let sh := size_sub r.2.len i
          match memmove r.2.ptrs (i + 1) i (size_mul sh PTR_BYTES) with
          | none => none
          | some moved =>
            match store (some moved) i p with
            | none => none
            | some buf =>
              some (PLIST_GOOD, some { r.2 with ptrs := some buf, len := size_add r.2.len 1 })

/-- Source: `plist_del`. Returns the deleted pointer and the record. -/
def plist_del (l : Option plist_t) (i : Nat) : Option (Handle × Option plist_t) :=
  if !plist_check l then some (NULL, l)
  else
    match l with
    | none => none
    | some s =>
      let picked : Option (Handle × Option Buffer) :=
        if i ≥ size_sub s.len 1 then
          match load s.ptrs (size_sub s.len 1) with
          | none => none
          | some ret => some (ret, s.ptrs)
        else
          match load s.ptrs i with
          | none => none
          | some ret =>
            let sh := size_sub s.len i
            match memmove s.ptrs i (i + 1) (size_mul sh PTR_BYTES) with
            | none => none
            | some moved => some (ret, some moved)
      picked.bind fun r =>
        match store r.2 (size_sub s.len 1) NULL with
        | none => none
        | some buf => some (r.1, some { s with ptrs := some buf, len := size_sub s.len 1 })

/-- Loop of `plist_clear`, `for (i = 0; i < l->len; i++)`: `k` iterations are
left (`l->len - i`), `i` is the loop index. -/
def plist_clear_loop (free : Option FreeFn) :
    Nat → Nat → Option Buffer → Option (Option Buffer × List Call)
  | 0, _, ptrs => some (ptrs, [])
  | k + 1, i, ptrs =>
    match load ptrs i, free with
    | some h, some fn =>
      match store ptrs i NULL with
      | none => none
      | some buf =>
        match plist_clear_loop free k (i + 1) (some buf) with
        | none => none
        | some (out, calls) => some (out, ⟨fn, h⟩ :: calls)
    | _, _ => none

/-- Source: `plist_clear`. Returns the record and the releaser calls made. -/
def plist_clear (l : Option plist_t) : Option (Option plist_t × List Call) :=
  if plist_check l then
    match l with
    | none => none
    | some s =>
      match plist_clear_loop s.free s.len 0 s.ptrs with
      | none => none
      | some (ptrs, calls) => some (some { s with ptrs := ptrs, len := 0 }, calls)
  else some (l, [])

/-- Loop of `plist_free`, `for (i = 0; i < l->len; i++)`: `k` iterations are
left (`l->len - i`), `i` is the loop index. -/
def plist_free_loop (free : Option FreeFn) (ptrs : Option Buffer) :
    Nat → Nat → Option (List Call)
  | 0, _ => some []
  | k + 1, i =>
    match load ptrs i, free with
    | some h, some fn =>
      match plist_free_loop free ptrs k (i + 1) with
      | none => none
      | some calls => some (⟨fn, h⟩ :: calls)
    | _, _ => none

/-- Source: `plist_free`. Returns the record and the releaser calls made. -/
def plist_free (l : Option plist_t) : Option (Option plist_t × List Call) :=
  if plist_check l then
    match l with
    | none => none
    | some s =>
      match plist_free_loop s.free s.ptrs s.len 0 with
      | none => none
      | some calls => some (some { s with ptrs := none }, calls)
  else some (l, [])

/-! ## Well-formed records -/

/-- An initialised list: `ptrs` points to a block of exactly `max` slots that
the allocator can have granted, the capacity is positive, `len` does not exceed
it, and a releaser is bound. A successful `plist_init` establishes this
(`plist_init_good`), and `plist_add`, `plist_ins`, `plist_clear` and `plist_del`
on a non-empty list keep it (`plist_add_total`, `plist_ins_good`,
`plist_clear_spec`, `plist_del_result`). -/
def initialised (l : plist_t) : Prop :=
  l.ptrs.map List.length = some l.max ∧ 0 < l.max ∧ l.max * PTR_BYTES ≤ PTRDIFF_MAX ∧
    l.len ≤ l.max ∧ l.free.isSome

instance (l : plist_t) : Decidable (initialised l) := by
  unfold initialised; infer_instance

/-- Calling `plist_add` on each handle in turn, each call with its own allocator
answer; returns the statuses in call order and the final record. -/
def add_all : List (Alloc × Handle) → Option plist_t → Option (List Nat × Option plist_t)
  | [], l => some ([], l)
  | (a, p) :: rest, l =>
    match plist_add a l p with
    | none => none
    | some (r, l1) =>
      match add_all rest l1 with
      | none => none
      | some (rs, l2) => some (r :: rs, l2)

/-- Growth, when it is needed, succeeds: a slot is spare, or `realloc` grants
the doubled block requested by `plist_alloc`. -/
def growth_succeeds (a : Alloc) (s : plist_t) : Prop :=
  s.len < s.max ∨ (realloc a s.ptrs (size_mul (size_mul 2 s.max) PTR_BYTES)).isSome

instance (a : Alloc) (s : plist_t) : Decidable (growth_succeeds a s) := by
  unfold growth_succeeds; infer_instance

/-- Every reallocation attempted while `add_all` runs the calls succeeds. -/
def reallocs_succeed : List (Alloc × Handle) → Option plist_t → Bool
  | [], _ => true
  | (a, p) :: rest, l =>
    (match l with
      | none => true
      | some s => decide (growth_succeeds a s)) &&
    (match plist_add a l p with
      | none => true
      | some r => reallocs_succeed rest r.2)

/-- An allocator answer that grants the request; fresh slot `k` holds `500 + k`. -/
def grant : Alloc := some fun k => 500 + k

/-- A full list: ten handles in a block of ten slots. -/
def sample_full : plist_t :=
  { ptrs := some [1, 2, 3, 4, 5, 6, 7, 8, 9, 10], len := 10, max := 10,
    free := some FreeFn.def_free }

/-- A list of four handles in a block of ten slots. -/
def sample_four : plist_t :=
  { ptrs := some [11, 12, 13, 14, 0, 91, 92, 93, 94, 95], len := 4, max := 10,
    free := some (FreeFn.user 7) }

/-- Eleven calls of `plist_add`, one more than the default capacity. -/
def eleven_calls : List (Alloc × Handle) :=
  (List.range 11).map fun k => (grant, k + 1)

/-- The stored handles (slots `[0, len)`) are pairwise distinct. -/
def distinct_handles (s : plist_t) : Prop :=
  ∀ j, j < s.len → ∀ k, k < s.len → load s.ptrs j = load s.ptrs k → j = k

instance (s : plist_t) : Decidable (distinct_handles s) := by
  unfold distinct_handles; infer_instance

/-- The stored handles: the content of slots `[0, len)`, in slot order. -/
def stored (s : plist_t) : List Handle :=
  (s.ptrs.getD []).take s.len

/-- Every slot in `[0, len)` holds a non-null handle. -/
def nonnull_slots (s : plist_t) : Prop :=
  ∀ j, j < s.len → load s.ptrs j ≠ none ∧ load s.ptrs j ≠ some NULL

instance (s : plist_t) : Decidable (nonnull_slots s) := by
  unfold nonnull_slots; infer_instance

/-- Slots of the block that `plist_del` reads or writes, in program order, on a
record that passes `plist_check` (lines 93-100 of `ptrlist.c`). Remove-last
branch: the read of `ptrs[len - 1]`, then the write `ptrs[--len] = NULL`.
Shifting branch: the read of `ptrs[i]`, the slots `memmove` reads (from slot
`i + 1` on), the slots it writes (from slot `i` on), then the final write. -/
def plist_del_slots (s : plist_t) (i : Nat) : List Nat :=
  if i ≥ size_sub s.len 1 then [size_sub s.len 1, size_sub s.len 1]
  else
    let n := size_mul (size_sub s.len i) PTR_BYTES / PTR_BYTES
    [i] ++ (List.range n).map (fun k => i + 1 + k) ++ (List.range n).map (fun k => i + k) ++
      [size_sub s.len 1]

/-- An empty list as `plist_init` leaves it: ten slots of indeterminate content. -/
def sample_empty : plist_t :=
  { ptrs := some [100, 101, 102, 103, 104, 105, 106, 107, 108, 109], len := 0, max := 10,
    free := some FreeFn.def_free }

/-- A list of nine handles in a block of ten slots: one insertion fills it. -/
def sample_nine : plist_t :=
  { ptrs := some [1, 2, 3, 4, 5, 6, 7, 8, 9, 77], len := 9, max := 10,
    free := some FreeFn.def_free }

/-- What the scenario of the specification observes. -/
structure ScenarioLog where
  statuses : List Nat
  len_added : Nat
  after_ins : List Handle
  deleted : Handle
  after_del : List Handle
  len_deleted : Nat
  released : List Call
  len_cleared : Nat
  ptrs_freed : Option Buffer
deriving DecidableEq, Repr

/-- The scenario of the specification run on the code: `plist_init` with the
default releaser (no function supplied), `plist_add` of `A`, `B`, `C`,
`plist_ins` of `D` at index 1, `plist_del` at index 10, `plist_clear`,
`plist_free`. `a` is the answer of the allocator to every request. -/
def scenario (a : Alloc) (A B C D : Handle) : Option ScenarioLog :=
  let r0 := plist_init a (some ⟨none, 0, 0, none⟩) none
  (plist_add a r0.2 A).bind fun r1 =>
  (plist_add a r1.2 B).bind fun r2 =>
  (plist_add a r2.2 C).bind fun r3 =>
  (plist_ins a r3.2 D 1).bind fun r4 =>
  (plist_del r4.2 10).bind fun r5 =>
  (plist_clear r5.2).bind fun r6 =>
  (plist_free r6.1).bind fun r7 =>
  some
    { statuses := [r0.1, r1.1, r2.1, r3.1, r4.1]
      len_added := (r3.2.map plist_t.len).getD 0
      after_ins := (r4.2.map stored).getD []
      deleted := r5.1
      after_del := (r5.2.map stored).getD []
      len_deleted := (r5.2.map plist_t.len).getD 0
      released := r6.2
      len_cleared := (r6.1.map plist_t.len).getD 0
      ptrs_freed := r7.1.bind plist_t.ptrs }

/-- The log the specification gives for the scenario (section 8, concrete
scenario): length 3 after the adds, `A,D,B,C` after the insertion, `C` removed
leaving `A,D,B` with length 2, the releaser invoked on `A` and `D`, length 0
after the clear, no block after the destroy. -/
def scenario_specified (A B C D : Handle) : ScenarioLog :=
  { statuses := [PLIST_GOOD, PLIST_GOOD, PLIST_GOOD, PLIST_GOOD, PLIST_GOOD]
    len_added := 3
    after_ins := [A, D, B, C]
    deleted := C
    after_del := [A, D, B]
    len_deleted := 2
    released := [⟨FreeFn.def_free, A⟩, ⟨FreeFn.def_free, D⟩]
    len_cleared := 0
    ptrs_freed := none }

/-- The log of the scenario with the length after the removal and the released
handles as the code gives them: length 3, releaser invoked on `A`, `D`, `B`. -/
def scenario_observed (A B C D : Handle) : ScenarioLog :=
  { scenario_specified A B C D with
    len_deleted := 3
    released := [⟨FreeFn.def_free, A⟩, ⟨FreeFn.def_free, D⟩, ⟨FreeFn.def_free, B⟩] }

/-! ## Memory and allocator lemmas -/

theorem load_some (buf : Buffer) (i : Nat) : load (some buf) i = buf[i]? := rfl

theorem store_some_eq {buf : Buffer} {i : Nat} (h : i < buf.length) (v : Handle) :
    store (some buf) i v = some (buf.set i v) := by
  simp [store, h]

theorem store_eq_none {buf : Buffer} {i : Nat} (h : buf.length ≤ i) (v : Handle) :
    store (some buf) i v = none := by
  simp [store]; omega

theorem memmove_getElem? {buf out : Buffer} {dst src bytes : Nat}
    (h : memmove (some buf) dst src bytes = some out) :
    out.length = buf.length ∧
    ∀ k, out[k]? = if dst ≤ k ∧ k < dst + bytes / PTR_BYTES then buf[src + (k - dst)]? else buf[k]? := by
  simp only [memmove] at h
  generalize bytes / PTR_BYTES = n at h ⊢
  split at h
  · rename_i hb
    obtain ⟨h1, h2⟩ := hb
    simp only [Option.some.injEq] at h
    subst h
    constructor
    · simp; omega
    · intro k
      by_cases hk1 : k < dst
      · have : ¬ (dst ≤ k ∧ k < dst + n) := by omega
        simp only [this, if_false]
        rw [List.append_assoc, List.getElem?_append_left (by simp; omega)]
        simp [List.getElem?_take, hk1]
      · by_cases hk2 : k < dst + n
        · have : (dst ≤ k ∧ k < dst + n) := by omega
          simp only [this, and_self, if_true]
          rw [List.append_assoc, List.getElem?_append_right (by simp; omega)]
          rw [List.getElem?_append_left (by simp; omega)]
          simp [List.getElem?_take, List.getElem?_drop]
          have e : min dst buf.length = dst := by omega
          rw [e, if_pos (by omega)]
        · have : ¬ (dst ≤ k ∧ k < dst + n) := by omega
          simp only [this, if_false]
          rw [List.getElem?_append_right (by simp; omega)]
          simp [List.getElem?_drop]
          congr 1
          omega
  · simp at h

theorem realloc_spec {a : Alloc} {buf out : Buffer} {bytes : Nat}
    (h : realloc a (some buf) bytes = some out) :
    bytes ≤ PTRDIFF_MAX ∧ out.length = bytes / PTR_BYTES ∧
    ∀ k, k < buf.length → k < bytes / PTR_BYTES → out[k]? = buf[k]? := by
  unfold realloc at h
  cases a with
  | none => simp at h
  | some junk =>
    simp only at h
    generalize bytes / PTR_BYTES = n at h ⊢
    split at h
    · rename_i hb
      simp only [Option.getD_some, Option.some.injEq] at h
      subst h
      refine ⟨hb, ?_, ?_⟩
      · simp; omega
      · intro k hk1 hk2
        rw [List.getElem?_append_left (by simp; omega)]
        simp [List.getElem?_take, hk2]
    · simp at h

theorem initialised_ptrs {s : plist_t} (h : initialised s) :
    ∃ buf, s.ptrs = some buf ∧ buf.length = s.max := by
  obtain ⟨h1, _⟩ := h
  cases hp : s.ptrs with
  | none => simp [hp] at h1
  | some buf => exact ⟨buf, rfl, by simpa [hp] using h1⟩

theorem plist_alloc_status (a : Alloc) (s : plist_t) :
    (plist_alloc a s).1 = PLIST_GOOD ∨ plist_alloc a s = (PLIST_ALLOC_ERR, s) := by
  unfold plist_alloc
  split
  · left; rfl
  · split
    · left; rfl
    · right; rfl

theorem grow_bytes {m : Nat} (h : m * PTR_BYTES ≤ PTRDIFF_MAX) :
    size_mul (size_mul 2 m) PTR_BYTES = 16 * m ∧ size_mul m 2 = 2 * m := by
  simp only [size_mul, PTR_BYTES, PTRDIFF_MAX, SIZE_MOD] at *
  omega

/-- Successful `plist_alloc` on an initialised list: a slot is spare afterwards, the
stored slots are preserved, and the capacity is unchanged or doubled. -/
theorem plist_alloc_good {a : Alloc} {s : plist_t} (hi : initialised s)
    (hg : (plist_alloc a s).1 = PLIST_GOOD) :
    initialised (plist_alloc a s).2 ∧ (plist_alloc a s).2.len = s.len ∧
    s.len < (plist_alloc a s).2.max ∧ (plist_alloc a s).2.free = s.free ∧
    ((s.len < s.max ∧ (plist_alloc a s).2 = s) ∨
      (s.len = s.max ∧ (plist_alloc a s).2.max = 2 * s.max)) ∧
    ∀ k, k < s.max → load (plist_alloc a s).2.ptrs k = load s.ptrs k := by
  obtain ⟨buf, hp, hl⟩ := initialised_ptrs hi
  have hi2 := hi
  obtain ⟨h1, h2, h3, h4, h5⟩ := hi2
  unfold plist_alloc at hg ⊢
  by_cases hlt : s.len < s.max
  · rw [if_pos hlt]
    exact ⟨hi, rfl, hlt, rfl, Or.inl ⟨hlt, rfl⟩, fun _ _ => rfl⟩
  · rw [if_neg hlt] at hg ⊢
    obtain ⟨e1, e2⟩ := grow_bytes h3
    rw [e1, e2, hp] at hg ⊢
    cases hr : realloc a (some buf) (16 * s.max) with
    | none => rw [hr] at hg; simp [PLIST_ALLOC_ERR, PLIST_GOOD] at hg
    | some out =>
      obtain ⟨r1, r2, r3⟩ := realloc_spec hr
      have r2' : out.length = 2 * s.max := by
        rw [r2]; simp only [PTR_BYTES]; omega
      dsimp only
      refine ⟨⟨?_, ?_, ?_, ?_, h5⟩, rfl, ?_, rfl, Or.inr ⟨by omega, rfl⟩, ?_⟩
      · simp [r2']
      · simp only; omega
      · simp only [PTR_BYTES] at *; omega
      · simp only; omega
      · omega
      · intro k hk
        simp only [load]
        exact r3 k (by omega) (by rw [← r2, r2']; omega)

theorem plist_check_of_initialised {s : plist_t} (h : initialised s) :
    plist_check (some s) = true := by
  obtain ⟨buf, hp, _⟩ := initialised_ptrs h
  simp [plist_check, hp]

theorem size_add_one {n m : Nat} (h1 : n < m) (h2 : m * PTR_BYTES ≤ PTRDIFF_MAX) :
    size_add n 1 = n + 1 := by
  simp only [size_add, PTR_BYTES, PTRDIFF_MAX, SIZE_MOD] at *
  omega

/-- Effect of `plist_add` with a non-null handle when growth fails. -/
theorem plist_add_fail {a : Alloc} {s : plist_t} {p : Handle}
    (hc : plist_check (some s) = true) (hp : p ≠ NULL)
    (hg : (plist_alloc a s).1 ≠ PLIST_GOOD) :
    plist_add a (some s) p = some (PLIST_ALLOC_ERR, some s) := by
  have e : plist_alloc a s = (PLIST_ALLOC_ERR, s) := by
    rcases plist_alloc_status a s with h | h
    · exact absurd h hg
    · exact h
  simp [plist_add, hc, hp, e, PLIST_ALLOC_ERR]

/-- Effect of `plist_add` with a non-null handle when growth succeeds. -/
theorem plist_add_good {a : Alloc} {s : plist_t} {p : Handle}
    (hi : initialised s) (hp : p ≠ NULL) (hg : (plist_alloc a s).1 = PLIST_GOOD) :
    ∃ s', plist_add a (some s) p = some (PLIST_GOOD, some s') ∧ initialised s' ∧
      s'.len = s.len + 1 ∧ s'.free = s.free ∧ s'.max = (plist_alloc a s).2.max ∧
      load s'.ptrs s.len = some p ∧ ∀ k, k < s.len → load s'.ptrs k = load s.ptrs k := by
  obtain ⟨g1, g2, g3, g4, _, g6⟩ := plist_alloc_good hi hg
  obtain ⟨buf1, hp1, hl1⟩ := initialised_ptrs g1
  have hlen : size_add s.len 1 = s.len + 1 := size_add_one g3 g1.2.2.1
  have hst : store (plist_alloc a s).2.ptrs (plist_alloc a s).2.len p = some (buf1.set s.len p) := by
    rw [hp1, g2]; exact store_some_eq (by omega) p
  rw [g2] at hst
  refine ⟨{ (plist_alloc a s).2 with ptrs := some (buf1.set s.len p), len := s.len + 1 }, ?_, ?_, rfl, g4, rfl, ?_, ?_⟩
  · simp [plist_add, plist_check_of_initialised hi, hp, hg, PLIST_GOOD, hst, g2, hlen]
  · obtain ⟨_, i2, i3, _, i5⟩ := g1
    exact ⟨by simp [hl1], i2, i3, by dsimp only; omega, i5⟩
  · simp only [load]
    rw [List.getElem?_set_self (by omega)]
  · intro k hk
    have := g6 k (by have := hi.2.2.2.1; omega)
    rw [hp1] at this
    rw [← this]
    simp only [load]
    rw [List.getElem?_set_ne (by omega)]

theorem plist_add_total {a : Alloc} {s : plist_t} {p : Handle}
    (hi : initialised s) (hp : p ≠ NULL) :
    ∃ r s', plist_add a (some s) p = some (r, some s') ∧ initialised s' ∧ s'.free = s.free ∧
      (r = PLIST_GOOD ∨ r = PLIST_ALLOC_ERR) ∧
      (r ≠ PLIST_ALLOC_ERR → s'.len = s.len + 1 ∧ load s'.ptrs s.len = some p ∧
        ∀ k, k < s.len → load s'.ptrs k = load s.ptrs k) := by
  by_cases hg : (plist_alloc a s).1 = PLIST_GOOD
  · obtain ⟨s', h1, h2, h3, h4, _, h6, h7⟩ := plist_add_good hi hp hg
    exact ⟨PLIST_GOOD, s', h1, h2, h4, Or.inl rfl, fun _ => ⟨h3, h6, h7⟩⟩
  · exact ⟨PLIST_ALLOC_ERR, s, plist_add_fail (plist_check_of_initialised hi) hp hg, hi, rfl,
      Or.inr rfl, fun h => absurd rfl h⟩

/-- Record left by a successful `plist_init`. -/
theorem plist_init_good {a : Alloc} {l0 : plist_t} {freefn : Option FreeFn}
    (h : (plist_init a (some l0) freefn).1 = PLIST_GOOD) :
    ∃ s, (plist_init a (some l0) freefn).2 = some s ∧ initialised s ∧ s.len = 0 ∧
      s.max = DEF_MAX ∧ s.free = some (freefn.getD FreeFn.def_free) := by
  cases a with
  | none => simp [plist_init, malloc, realloc, PLIST_ALLOC_ERR, PLIST_GOOD] at h
  | some junk =>
    refine ⟨_, rfl, ?_, rfl, rfl, ?_⟩
    · refine ⟨?_, (by decide : 0 < DEF_MAX), (by decide : DEF_MAX * PTR_BYTES ≤ PTRDIFF_MAX),
        (by decide : 0 ≤ DEF_MAX), rfl⟩
      simp [malloc, realloc, size_mul, DEF_MAX, PTR_BYTES, PTRDIFF_MAX, SIZE_MOD]
    · cases freefn <;> rfl

theorem memmove_some (buf : Buffer) (dst src bytes : Nat)
    (h1 : src + bytes / PTR_BYTES ≤ buf.length) (h2 : dst + bytes / PTR_BYTES ≤ buf.length) :
    ∃ out, memmove (some buf) dst src bytes = some out := by
  simp [memmove, h1, h2]

theorem memmove_none {buf : Buffer} {dst src bytes : Nat}
    (h : buf.length < src + bytes / PTR_BYTES) :
    memmove (some buf) dst src bytes = none := by
  simp only [memmove]
  rw [if_neg (by omega)]

theorem shift_bytes {n i m : Nat} (h1 : i ≤ n) (h2 : n ≤ m) (h3 : m * PTR_BYTES ≤ PTRDIFF_MAX) :
    size_mul (size_sub n i) PTR_BYTES / PTR_BYTES = n - i := by
  simp only [size_mul, size_sub, PTR_BYTES, PTRDIFF_MAX, SIZE_MOD] at *
  omega

theorem size_sub_one {n m : Nat} (h1 : 0 < n) (h2 : n ≤ m) (h3 : m * PTR_BYTES ≤ PTRDIFF_MAX) :
    size_sub n 1 = n - 1 := by
  simp only [size_sub, PTR_BYTES, PTRDIFF_MAX, SIZE_MOD] at *
  omega

theorem load_of_lt {s : plist_t} (hi : initialised s) {j : Nat} (hj : j < s.max) :
    ∃ h, load s.ptrs j = some h := by
  obtain ⟨buf, hp, hl⟩ := initialised_ptrs hi
  rw [hp]
  exact ⟨buf[j], by simp [load, List.getElem?_eq_getElem (show j < buf.length by omega)]⟩

/-- Effect of `plist_ins` at an index below `len` when growth succeeds. -/
theorem plist_ins_good {a : Alloc} {s : plist_t} {p : Handle} {i : Nat}
    (hi : initialised s) (hp : p ≠ NULL) (hlt : i < s.len)
    (hg : (plist_alloc a s).1 = PLIST_GOOD) :
    ∃ s', plist_ins a (some s) p i = some (PLIST_GOOD, some s') ∧ initialised s' ∧
      s'.len = s.len + 1 ∧ s'.free = s.free ∧ s'.max = (plist_alloc a s).2.max ∧
      load s'.ptrs i = some p ∧ (∀ j, j < i → load s'.ptrs j = load s.ptrs j) ∧
      ∀ j, i ≤ j → j < s.len → load s'.ptrs (j + 1) = load s.ptrs j := by
  obtain ⟨g1, g2, g3, g4, _, g6⟩ := plist_alloc_good hi hg
  obtain ⟨buf1, hp1, hl1⟩ := initialised_ptrs g1
  have hmax := hi.2.2.2.1
  have hlen : size_add s.len 1 = s.len + 1 := size_add_one g3 g1.2.2.1
  have hsh : size_mul (size_sub s.len i) PTR_BYTES / PTR_BYTES = s.len - i :=
    shift_bytes (by omega) (Nat.le_of_lt g3) g1.2.2.1
  obtain ⟨moved, hmv⟩ := memmove_some buf1 (i + 1) i
    (size_mul (size_sub s.len i) PTR_BYTES) (by rw [hsh]; omega) (by rw [hsh]; omega)
  obtain ⟨ml, mg⟩ := memmove_getElem? hmv
  rw [hsh] at mg
  have hst : store (some moved) i p = some (moved.set i p) := store_some_eq (by omega) p
  refine ⟨{ (plist_alloc a s).2 with ptrs := some (moved.set i p), len := s.len + 1 },
    ?_, ?_, rfl, g4, rfl, ?_, ?_, ?_⟩
  · have hge : ¬ (i ≥ s.len) := by omega
    simp [plist_ins, plist_check_of_initialised hi, hp, hge, hg, PLIST_GOOD, g2, hp1, hmv, hst, hlen]
  · obtain ⟨_, i2, i3, _, i5⟩ := g1
    exact ⟨by simp [hl1, ml], i2, i3, by dsimp only; omega, i5⟩
  · simp only [load]
    rw [List.getElem?_set_self (by omega)]
  · intro j hj
    have := g6 j (by omega)
    rw [hp1] at this
    rw [← this]
    simp only [load]
    rw [List.getElem?_set_ne (by omega), mg j, if_neg (by omega)]
  · intro j hj1 hj2
    have := g6 j (by omega)
    rw [hp1] at this
    rw [← this]
    simp only [load]
    rw [List.getElem?_set_ne (by omega), mg (j + 1), if_pos (by omega),
      show i + (j + 1 - (i + 1)) = j by omega]

/-- Remove-last branch of `plist_del` (`i >= len - 1`) on a non-empty initialised list. -/
theorem plist_del_last {s : plist_t} {i : Nat} (hi : initialised s) (hpos : 0 < s.len)
    (hge : s.len - 1 ≤ i) :
    ∃ buf h, s.ptrs = some buf ∧ buf[s.len - 1]? = some h ∧
      plist_del (some s) i =
        some (h, some { s with ptrs := some (buf.set (s.len - 1) NULL), len := s.len - 1 }) := by
  obtain ⟨buf, hp, hl⟩ := initialised_ptrs hi
  obtain ⟨_, _, h3, h4, _⟩ := hi
  have e1 : size_sub s.len 1 = s.len - 1 := size_sub_one hpos h4 h3
  have hlt : s.len - 1 < buf.length := by omega
  refine ⟨buf, buf[s.len - 1], hp, List.getElem?_eq_getElem hlt, ?_⟩
  have hc : plist_check (some s) = true := by simp [plist_check, hp]
  have hst : store (some buf) (s.len - 1) NULL = some (buf.set (s.len - 1) NULL) :=
    store_some_eq hlt NULL
  unfold plist_del
  rw [hc, if_neg (by simp)]
  dsimp only
  rw [e1, if_pos hge, hp]
  simp only [load, List.getElem?_eq_getElem hlt, Option.bind, hst]

/-- Shifting branch of `plist_del` (`i < len - 1`) on an initialised list that is not
full: the handle of slot `i` is returned and the later handles move one slot left. -/
theorem plist_del_shift {s : plist_t} {i : Nat} (hi : initialised s) (hlt : i + 1 < s.len)
    (hroom : s.len < s.max) :
    ∃ h s', load s.ptrs i = some h ∧ plist_del (some s) i = some (h, some s') ∧
      initialised s' ∧ s'.len = s.len - 1 ∧ s'.max = s.max ∧ s'.free = s.free ∧
      (∀ j, j < i → load s'.ptrs j = load s.ptrs j) ∧
      (∀ j, i ≤ j → j < s.len - 1 → load s'.ptrs j = load s.ptrs (j + 1)) ∧
      load s'.ptrs (s.len - 1) = some NULL := by
  obtain ⟨buf, hp, hl⟩ := initialised_ptrs hi
  obtain ⟨_, i2, i3, i4, i5⟩ := hi
  have e1 : size_sub s.len 1 = s.len - 1 := size_sub_one (by omega) i4 i3
  have hsh : size_mul (size_sub s.len i) PTR_BYTES / PTR_BYTES = s.len - i :=
    shift_bytes (by omega) i4 i3
  have hi' : i < buf.length := by omega
  obtain ⟨moved, hmv⟩ := memmove_some buf i (i + 1)
    (size_mul (size_sub s.len i) PTR_BYTES) (by rw [hsh]; omega) (by rw [hsh]; omega)
  obtain ⟨ml, mg⟩ := memmove_getElem? hmv
  rw [hsh] at mg
  have hst : store (some moved) (s.len - 1) NULL = some (moved.set (s.len - 1) NULL) :=
    store_some_eq (by omega) NULL
  have hc : plist_check (some s) = true := by simp [plist_check, hp]
  have hnot : ¬ (s.len - 1 ≤ i) := by omega
  refine ⟨buf[i], { s with ptrs := some (moved.set (s.len - 1) NULL), len := s.len - 1 },
    by simp [hp, load, List.getElem?_eq_getElem hi'], ?_, ?_, rfl, rfl, rfl, ?_, ?_, ?_⟩
  · unfold plist_del
    rw [hc, if_neg (by simp)]
    dsimp only
    rw [e1, if_neg hnot, hp]
    simp only [load, List.getElem?_eq_getElem hi', hmv, Option.bind, hst]
  · exact ⟨by simp [ml, hl], i2, i3, by dsimp only; omega, i5⟩
  · intro j hj
    simp only [load, hp]
    rw [List.getElem?_set_ne (by omega), mg j, if_neg (by omega)]
  · intro j hj1 hj2
    simp only [load, hp]
    rw [List.getElem?_set_ne (by omega), mg j, if_pos (by omega),
      show i + 1 + (j - i) = j + 1 by omega]
  · simp only [load]
    rw [List.getElem?_set_self (by omega)]

/-- Shifting branch of `plist_del` on a full initialised list: the `memmove` of
`len - i` slots from slot `i + 1` reaches slot `max`, outside the block. -/
theorem plist_del_shift_full {s : plist_t} {i : Nat} (hi : initialised s) (hlt : i + 1 < s.len)
    (hfull : s.len = s.max) : plist_del (some s) i = none := by
  obtain ⟨buf, hp, hl⟩ := initialised_ptrs hi
  obtain ⟨_, i2, i3, i4, i5⟩ := hi
  have e1 : size_sub s.len 1 = s.len - 1 := size_sub_one (by omega) i4 i3
  have hsh : size_mul (size_sub s.len i) PTR_BYTES / PTR_BYTES = s.len - i :=
    shift_bytes (by omega) i4 i3
  have hi' : i < buf.length := by omega
  have hmv : memmove (some buf) i (i + 1) (size_mul (size_sub s.len i) PTR_BYTES) = none :=
    memmove_none (by rw [hsh]; omega)
  have hc : plist_check (some s) = true := by simp [plist_check, hp]
  have hnot : ¬ (s.len - 1 ≤ i) := by omega
  unfold plist_del
  rw [hc, if_neg (by simp)]
  dsimp only
  rw [e1, if_neg hnot, hp]
  simp only [load, List.getElem?_eq_getElem hi', hmv, Option.bind]

theorem plist_clear_loop_spec (fn : FreeFn) :
    ∀ (k i : Nat) (buf : Buffer), i + k ≤ buf.length →
    ∃ out, plist_clear_loop (some fn) k i (some buf) =
        some (some out, ((buf.drop i).take k).map (Call.mk fn)) ∧
      out.length = buf.length ∧
      ∀ j, out[j]? = if i ≤ j ∧ j < i + k then some NULL else buf[j]? := by
  intro k
  induction k with
  | zero =>
    intro i buf _
    refine ⟨buf, by simp [plist_clear_loop], rfl, fun j => ?_⟩
    rw [if_neg (by omega)]
  | succ k ih =>
    intro i buf hb
    have hi : i < buf.length := by omega
    obtain ⟨out, h1, h2, h3⟩ := ih (i + 1) (buf.set i NULL) (by simp; omega)
    refine ⟨out, ?_, by simpa using h2, fun j => ?_⟩
    · have hd : buf.drop i = buf[i] :: buf.drop (i + 1) := List.drop_eq_getElem_cons hi
      unfold plist_clear_loop
      simp only [load, List.getElem?_eq_getElem hi, store_some_eq hi, h1]
      rw [hd, List.take_succ_cons, List.map_cons, List.drop_set_of_lt _ _ (by omega)]
    · rw [h3 j]
      by_cases hj : j = i
      · subst hj
        rw [if_neg (by omega), if_pos (by omega), List.getElem?_set_self hi]
      · rw [List.getElem?_set_ne (by omega)]
        by_cases hj2 : i + 1 ≤ j ∧ j < i + 1 + k
        · rw [if_pos hj2, if_pos (by omega)]
        · rw [if_neg hj2, if_neg (by omega)]

theorem plist_free_loop_spec (fn : FreeFn) (buf : Buffer) :
    ∀ (k i : Nat), i + k ≤ buf.length →
    plist_free_loop (some fn) (some buf) k i = some (((buf.drop i).take k).map (Call.mk fn)) := by
  intro k
  induction k with
  | zero => intro i _; simp [plist_free_loop]
  | succ k ih =>
    intro i hb
    have hi : i < buf.length := by omega
    have hd : buf.drop i = buf[i] :: buf.drop (i + 1) := List.drop_eq_getElem_cons hi
    unfold plist_free_loop
    simp only [load, List.getElem?_eq_getElem hi, ih (i + 1) (by omega)]
    rw [hd, List.take_succ_cons, List.map_cons]

theorem initialised_free {s : plist_t} (h : initialised s) : ∃ fn, s.free = some fn := by
  obtain ⟨_, _, _, _, h5⟩ := h
  cases hf : s.free with
  | none => simp [hf] at h5
  | some fn => exact ⟨fn, rfl⟩

/-- Effect of `plist_clear` on an initialised list. -/
theorem plist_clear_spec {s : plist_t} (hi : initialised s) :
    ∃ buf out fn, s.ptrs = some buf ∧ s.free = some fn ∧
      plist_clear (some s) =
        some (some { s with ptrs := some out, len := 0 }, (buf.take s.len).map (Call.mk fn)) ∧
      out.length = buf.length ∧ initialised { s with ptrs := some out, len := 0 } ∧
      ∀ j, out[j]? = if j < s.len then some NULL else buf[j]? := by
  obtain ⟨buf, hp, hl⟩ := initialised_ptrs hi
  obtain ⟨fn, hf⟩ := initialised_free hi
  obtain ⟨out, h1, h2, h3⟩ := plist_clear_loop_spec fn s.len 0 buf (by have := hi.2.2.2.1; omega)
  refine ⟨buf, out, fn, hp, hf, ?_, h2, ?_, fun j => ?_⟩
  · simp [plist_clear, plist_check, hp, hf, h1]
  · obtain ⟨_, i2, i3, _, i5⟩ := hi
    exact ⟨by simp [h2, hl], i2, i3, Nat.zero_le _, i5⟩
  · rw [h3 j]; simp

/-- Effect of `plist_free` on an initialised list. -/
theorem plist_free_spec {s : plist_t} (hi : initialised s) :
    ∃ buf fn, s.ptrs = some buf ∧ s.free = some fn ∧
      plist_free (some s) =
        some (some { s with ptrs := none }, (buf.take s.len).map (Call.mk fn)) := by
  obtain ⟨buf, hp, hl⟩ := initialised_ptrs hi
  obtain ⟨fn, hf⟩ := initialised_free hi
  have h1 := plist_free_loop_spec fn buf s.len 0 (by have := hi.2.2.2.1; omega)
  refine ⟨buf, fn, hp, hf, ?_⟩
  simp [plist_free, plist_check, hp, hf, h1]

/-! ## Claims -/

/-- Growth succeeds exactly when `plist_alloc` reports `PLIST_GOOD`. -/
theorem growth_succeeds_iff (a : Alloc) (s : plist_t) :
    growth_succeeds a s ↔ (plist_alloc a s).1 = PLIST_GOOD := by
  unfold growth_succeeds plist_alloc
  by_cases h : s.len < s.max
  · simp [h]
  · rw [if_neg h]
    cases hr : realloc a s.ptrs (size_mul (size_mul 2 s.max) PTR_BYTES) with
    | none => simp [h, PLIST_GOOD, PLIST_ALLOC_ERR]
    | some out => simp

theorem add_all_good (calls : List (Alloc × Handle)) :
    ∀ s : plist_t, initialised s → (∀ c ∈ calls, c.2 ≠ NULL) →
    reallocs_succeed calls (some s) = true →
    ∃ s', add_all calls (some s) = some (List.replicate calls.length PLIST_GOOD, some s') ∧
      initialised s' ∧ s'.len = s.len + calls.length ∧ s'.free = s.free ∧
      (∀ k, k < s.len → load s'.ptrs k = load s.ptrs k) ∧
      ∀ k, k < calls.length → load s'.ptrs (s.len + k) = (calls.map Prod.snd)[k]? := by
  induction calls with
  | nil =>
    intro s hi _ _
    exact ⟨s, rfl, hi, rfl, rfl, fun _ _ => rfl, fun k hk => by simp at hk⟩
  | cons c rest ih =>
    intro s hi hnn hre
    obtain ⟨a, p⟩ := c
    have hp : p ≠ NULL := hnn (a, p) (List.mem_cons_self _ _)
    simp only [reallocs_succeed, Bool.and_eq_true, decide_eq_true_eq] at hre
    obtain ⟨hg, hrest⟩ := hre
    obtain ⟨s1, e1, i1, l1, f1, _, p1, k1⟩ :=
      plist_add_good hi hp ((growth_succeeds_iff a s).1 hg)
    rw [e1] at hrest
    obtain ⟨s2, e2, i2, q2, f2, q3, q4⟩ :=
      ih s1 i1 (fun c hc => hnn c (List.mem_cons_of_mem _ hc)) hrest
    refine ⟨s2, by simp [add_all, e1, e2, List.replicate_succ], i2, ?_, by rw [f2, f1], ?_, ?_⟩
    · simp only [List.length_cons]; omega
    · intro k hk
      rw [q3 k (by omega), k1 k hk]
    · intro k hk
      cases k with
      | zero => simpa [p1] using q3 s.len (by omega)
      | succ j =>
        have := q4 j (by simpa using hk)
        rw [l1] at this
        rw [show s.len + (j + 1) = s.len + 1 + j by omega, this]
        simp

/-- C1: from a freshly initialised list, calling `plist_add` on non-null handles
h1..hn in turn, every reallocation succeeding: every call returns `PLIST_GOOD`,
afterwards `len = n`, and slots `[0, n)` hold h1..hn in that order, for every n. -/
theorem C1_add_keeps_order (a0 : Alloc) (l0 : plist_t) (freefn : Option FreeFn)
    (calls : List (Alloc × Handle))
    (hinit : (plist_init a0 (some l0) freefn).1 = PLIST_GOOD)
    (hnn : ∀ c ∈ calls, c.2 ≠ NULL)
    (hre : reallocs_succeed calls (plist_init a0 (some l0) freefn).2 = true) :
    ∃ s buf, add_all calls (plist_init a0 (some l0) freefn).2 =
        some (List.replicate calls.length PLIST_GOOD, some s) ∧
      s.len = calls.length ∧ s.ptrs = some buf ∧
      buf.take calls.length = calls.map Prod.snd := by
  obtain ⟨s0, e0, i0, l0', _, _⟩ := plist_init_good hinit
  rw [e0] at hre ⊢
  obtain ⟨s, e, i, q, _, _, q4⟩ := add_all_good calls s0 i0 hnn hre
  obtain ⟨buf, hp, hl⟩ := initialised_ptrs i
  refine ⟨s, buf, e, by omega, hp, ?_⟩
  apply List.ext_getElem?
  intro k
  by_cases hk : k < calls.length
  · have := q4 k hk
    rw [l0', Nat.zero_add, hp] at this
    rw [List.getElem?_take_of_lt hk, ← this]
    rfl
  · rw [List.getElem?_eq_none (by simp; omega), List.getElem?_eq_none (by simp; omega)]

/-- C1 at a concrete input: eleven handles, one reallocation. -/
theorem C1_add_keeps_order_witness :
    (plist_init grant (some sample_four) none).1 = PLIST_GOOD ∧
    (∀ c ∈ eleven_calls, c.2 ≠ NULL) ∧
    reallocs_succeed eleven_calls (plist_init grant (some sample_four) none).2 = true ∧
    ∃ s buf, add_all eleven_calls (plist_init grant (some sample_four) none).2 =
        some (List.replicate eleven_calls.length PLIST_GOOD, some s) ∧
      s.len = eleven_calls.length ∧ s.ptrs = some buf ∧
      buf.take eleven_calls.length = eleven_calls.map Prod.snd :=
  ⟨by decide, by decide, by decide,
    C1_add_keeps_order grant sample_four none eleven_calls (by decide) (by decide) (by decide)⟩

/-- C2: on an initialised list with `len = n <= max`, for a non-null handle `p`
and an index `i < n`, when growth (if needed) succeeds, `plist_ins` returns
`PLIST_GOOD`; afterwards `len = n + 1`, slot `i` holds `p`, slots `[0, i)` are
unchanged and the handle of every slot `j` in `[i, n)` is in slot `j + 1`. -/
theorem C2_ins_shifts_right (a : Alloc) (s : plist_t) (p : Handle) (i : Nat)
    (hi : initialised s) (hp : p ≠ NULL) (hlt : i < s.len) (hg : growth_succeeds a s) :
    ∃ s', plist_ins a (some s) p i = some (PLIST_GOOD, some s') ∧
      s'.len = s.len + 1 ∧ load s'.ptrs i = some p ∧
      (∀ j, j < i → load s'.ptrs j = load s.ptrs j) ∧
      (∀ j, i ≤ j → j < s.len → ∃ h, load s.ptrs j = some h ∧ load s'.ptrs (j + 1) = some h) := by
  obtain ⟨s', e, _, l, _, _, q1, q2, q3⟩ :=
    plist_ins_good hi hp hlt ((growth_succeeds_iff a s).1 hg)
  refine ⟨s', e, l, q1, q2, fun j h1 h2 => ?_⟩
  obtain ⟨h, hh⟩ := load_of_lt hi (show j < s.max by have := hi.2.2.2.1; omega)
  exact ⟨h, hh, by rw [q3 j h1 h2, hh]⟩

/-- C2 at a concrete input: insertion at index 3 of a full list, which grows. -/
theorem C2_ins_shifts_right_witness :
    initialised sample_full ∧ (42 : Handle) ≠ NULL ∧ 3 < sample_full.len ∧
    growth_succeeds grant sample_full ∧
    ∃ s', plist_ins grant (some sample_full) 42 3 = some (PLIST_GOOD, some s') ∧
      s'.len = sample_full.len + 1 ∧ load s'.ptrs 3 = some 42 ∧
      (∀ j, j < 3 → load s'.ptrs j = load sample_full.ptrs j) ∧
      (∀ j, 3 ≤ j → j < sample_full.len →
        ∃ h, load sample_full.ptrs j = some h ∧ load s'.ptrs (j + 1) = some h) :=
  ⟨by decide, by decide, by decide, by decide,
    C2_ins_shifts_right grant sample_full 42 3 (by decide) (by decide) (by decide) (by decide)⟩

/-- C3: on the full ten-slot list (`len = max = 10`) the call `plist_del(l, 0)`
has undefined behaviour: its `memmove` of `len - i = 10` slots starting at slot
`i + 1 = 1` reads slot 10, one past the end of the block. -/
theorem C3_del_full_list_overruns :
    initialised sample_full ∧ 2 ≤ sample_full.len ∧ sample_full.len ≤ sample_full.max ∧
    0 < sample_full.len - 1 ∧
    memmove sample_full.ptrs 0 1 (size_mul (size_sub sample_full.len 0) PTR_BYTES) = none ∧
    plist_del (some sample_full) 0 = none := by
  decide

/-- C4: on an initialised non-empty list with `len = n`, for every index
`i >= n - 1`, `plist_del` returns the handle of slot `n - 1`, sets `len` to
`n - 1` and leaves slots `[0, n - 1)` untouched. -/
theorem C4_del_last_or_beyond (s : plist_t) (i : Nat)
    (hi : initialised s) (hpos : 0 < s.len) (hge : s.len - 1 ≤ i) :
    ∃ h s', load s.ptrs (s.len - 1) = some h ∧ plist_del (some s) i = some (h, some s') ∧
      s'.len = s.len - 1 ∧ s'.max = s.max ∧
      ∀ j, j < s.len - 1 → load s'.ptrs j = load s.ptrs j := by
  obtain ⟨buf, h, hp, hh, e⟩ := plist_del_last hi hpos hge
  refine ⟨h, _, by rw [hp]; exact hh, e, rfl, rfl, fun j hj => ?_⟩
  simp only [load, hp]
  rw [List.getElem?_set_ne (by omega)]

/-- C4 at a concrete input: index 1000 on a list of four handles. -/
theorem C4_del_last_or_beyond_witness :
    initialised sample_four ∧ 0 < sample_four.len ∧ sample_four.len - 1 ≤ 1000 ∧
    ∃ h s', load sample_four.ptrs (sample_four.len - 1) = some h ∧
      plist_del (some sample_four) 1000 = some (h, some s') ∧
      s'.len = sample_four.len - 1 ∧ s'.max = sample_four.max ∧
      ∀ j, j < sample_four.len - 1 → load s'.ptrs j = load sample_four.ptrs j :=
  ⟨by decide, by decide, by decide,
    C4_del_last_or_beyond sample_four 1000 (by decide) (by decide) (by decide)⟩

theorem plist_add_null (a : Alloc) (l : Option plist_t) :
    plist_add a l NULL = some (PLIST_NULL_ERR, l) := by
  simp [plist_add]

theorem plist_ins_null (a : Alloc) (l : Option plist_t) (i : Nat) :
    plist_ins a l NULL i = some (PLIST_NULL_ERR, l) := by
  simp [plist_ins]

theorem plist_ins_ge {a : Alloc} {s : plist_t} {p : Handle} {i : Nat} (hge : s.len ≤ i) :
    plist_ins a (some s) p i = plist_add a (some s) p := by
  unfold plist_ins
  by_cases hc : (!plist_check (some s) || p == NULL) = true
  · rw [if_pos hc]
    unfold plist_add
    rw [if_pos hc]
  · rw [if_neg hc]
    dsimp only
    rw [if_pos hge]

/-- C5: for every index `i >= len` (also with `len = 0`, also far beyond `len`)
and every handle, `plist_ins(l, p, i)` and `plist_add(l, p)` give, under the
same allocator answer, the same status and the same resulting record; on an
initialised list both are defined. -/
theorem C5_ins_beyond_len_is_add (a : Alloc) (s : plist_t) (p : Handle) (i : Nat)
    (hge : s.len ≤ i) :
    plist_ins a (some s) p i = plist_add a (some s) p ∧
    (initialised s → ∃ r s', plist_ins a (some s) p i = some (r, some s')) := by
  refine ⟨plist_ins_ge hge, fun hi => ?_⟩
  rw [plist_ins_ge hge]
  by_cases hp : p = NULL
  · subst hp
    exact ⟨PLIST_NULL_ERR, s, plist_add_null a (some s)⟩
  · obtain ⟨r, s', e, _⟩ := plist_add_total (a := a) hi hp
    exact ⟨r, s', e⟩

/-- C5 at a concrete input: index 4000 on a list of four handles. -/
theorem C5_ins_beyond_len_is_add_witness :
    sample_four.len ≤ 4000 ∧
    plist_ins grant (some sample_four) 42 4000 = plist_add grant (some sample_four) 42 ∧
    (initialised sample_four →
      ∃ r s', plist_ins grant (some sample_four) 42 4000 = some (r, some s')) :=
  ⟨by decide, C5_ins_beyond_len_is_add grant sample_four 42 4000 (by decide)⟩

/-- C6: on an initialised list with `len = max`, when the reallocation attempted
by growth fails, `plist_add` and `plist_ins` (every non-null handle, every index)
return `PLIST_ALLOC_ERR` and the record (block content, `len`, `max`) is exactly
as before. -/
theorem C6_growth_failure_changes_nothing (a : Alloc) (s : plist_t) (p : Handle)
    (hi : initialised s) (hfull : s.len = s.max) (hp : p ≠ NULL)
    (hfail : realloc a s.ptrs (size_mul (size_mul 2 s.max) PTR_BYTES) = none) :
    plist_add a (some s) p = some (PLIST_ALLOC_ERR, some s) ∧
    ∀ i, plist_ins a (some s) p i = some (PLIST_ALLOC_ERR, some s) := by
  have hc := plist_check_of_initialised hi
  have hg : (plist_alloc a s).1 ≠ PLIST_GOOD := by
    intro h
    rcases (growth_succeeds_iff a s).2 h with h1 | h1
    · omega
    · rw [hfail] at h1; simp at h1
  have hadd := plist_add_fail (a := a) hc hp hg
  refine ⟨hadd, fun i => ?_⟩
  by_cases hge : s.len ≤ i
  · rw [plist_ins_ge hge, hadd]
  · have e : plist_alloc a s = (PLIST_ALLOC_ERR, s) := by
      rcases plist_alloc_status a s with h | h
      · exact absurd h hg
      · exact h
    have hnc : ¬ ((!plist_check (some s) || p == NULL) = true) := by simp [hc, hp]
    unfold plist_ins
    rw [if_neg hnc]
    dsimp only
    rw [if_neg hge, e]
    rfl

/-- C6 at a concrete input: the full list and an allocator that returns NULL. -/
theorem C6_growth_failure_changes_nothing_witness :
    initialised sample_full ∧ sample_full.len = sample_full.max ∧ (42 : Handle) ≠ NULL ∧
    realloc none sample_full.ptrs (size_mul (size_mul 2 sample_full.max) PTR_BYTES) = none ∧
    plist_add none (some sample_full) 42 = some (PLIST_ALLOC_ERR, some sample_full) ∧
    ∀ i, plist_ins none (some sample_full) 42 i = some (PLIST_ALLOC_ERR, some sample_full) :=
  ⟨by decide, by decide, by decide, by decide,
    C6_growth_failure_changes_nothing none sample_full 42 (by decide) (by decide) (by decide)
      (by decide)⟩

/-- C7: for every list, initialised or not (also a null list pointer), and every
index, `plist_add(l, NULL)` and `plist_ins(l, NULL, i)` return `PLIST_NULL_ERR`
and the record is exactly as before, whatever the allocator would answer. -/
theorem C7_null_handle_rejected (a : Alloc) (l : Option plist_t) (i : Nat) :
    plist_add a l NULL = some (PLIST_NULL_ERR, l) ∧
    plist_ins a l NULL i = some (PLIST_NULL_ERR, l) :=
  ⟨plist_add_null a l, plist_ins_null a l i⟩

theorem plist_add_first {a : Alloc} {s : plist_t} {p : Handle} (hi : initialised s)
    (h0 : s.len = 0) (hp : p ≠ NULL) :
    ∃ s', plist_add a (some s) p = some (PLIST_GOOD, some s') ∧ s'.len = 1 ∧
      s'.max = s.max ∧ load s'.ptrs 0 = some p := by
  have hlt : s.len < s.max := by have := hi.2.1; omega
  have hg : (plist_alloc a s).1 = PLIST_GOOD := by
    unfold plist_alloc; rw [if_pos hlt]
  have hs : (plist_alloc a s).2 = s := by
    unfold plist_alloc; rw [if_pos hlt]
  obtain ⟨s', e, _, l, _, m, q, _⟩ := plist_add_good hi hp hg
  exact ⟨s', e, by omega, by rw [m, hs], by rw [← h0]; exact q⟩

/-- C8: on an initialised list with `len = n <= max`, `plist_clear` invokes the
bound releaser exactly on the handles of slots `0, 1, ..., n - 1`, once each and
in that order, sets those slots to `NULL` and `len` to `0`, and leaves `max`, the
releaser and the size of the block as they were; afterwards `plist_add` and
`plist_ins` of any non-null handle return `PLIST_GOOD` with `len = 1`. -/
theorem C8_clear_releases_and_reuses (s : plist_t) (hi : initialised s) :
    ∃ buf out fn, s.ptrs = some buf ∧ s.free = some fn ∧
      plist_clear (some s) =
        some (some { s with ptrs := some out, len := 0 },
          (buf.take s.len).map (Call.mk fn)) ∧
      out.length = buf.length ∧ (∀ j, j < s.len → out[j]? = some NULL) ∧
      (∀ (a : Alloc) (p : Handle), p ≠ NULL →
        ∃ s', plist_add a (some { s with ptrs := some out, len := 0 }) p =
          some (PLIST_GOOD, some s') ∧ s'.len = 1) ∧
      (∀ (a : Alloc) (p : Handle) (i : Nat), p ≠ NULL →
        ∃ s', plist_ins a (some { s with ptrs := some out, len := 0 }) p i =
          some (PLIST_GOOD, some s') ∧ s'.len = 1) := by
  obtain ⟨buf, out, fn, hp, hf, e, hl, hi', hg⟩ := plist_clear_spec hi
  refine ⟨buf, out, fn, hp, hf, e, hl, fun j hj => by rw [hg j, if_pos hj], ?_, ?_⟩
  · intro a p hnn
    obtain ⟨s', e', l', _⟩ := plist_add_first (a := a) hi' rfl hnn
    exact ⟨s', e', l'⟩
  · intro a p i hnn
    obtain ⟨s', e', l', _⟩ := plist_add_first (a := a) hi' rfl hnn
    refine ⟨s', ?_, l'⟩
    rw [plist_ins_ge (Nat.zero_le i)]
    exact e'

/-- C8 at a concrete input: the list of four handles bound to releaser 7. -/
theorem C8_clear_releases_and_reuses_witness :
    initialised sample_four ∧
    plist_clear (some sample_four) =
      some (some { sample_four with ptrs := some [0, 0, 0, 0, 0, 91, 92, 93, 94, 95], len := 0 },
        [⟨FreeFn.user 7, 11⟩, ⟨FreeFn.user 7, 12⟩, ⟨FreeFn.user 7, 13⟩, ⟨FreeFn.user 7, 14⟩]) ∧
    ∃ buf out fn, sample_four.ptrs = some buf ∧ sample_four.free = some fn ∧
      plist_clear (some sample_four) =
        some (some { sample_four with ptrs := some out, len := 0 },
          (buf.take sample_four.len).map (Call.mk fn)) ∧
      out.length = buf.length ∧ (∀ j, j < sample_four.len → out[j]? = some NULL) ∧
      (∀ (a : Alloc) (p : Handle), p ≠ NULL →
        ∃ s', plist_add a (some { sample_four with ptrs := some out, len := 0 }) p =
          some (PLIST_GOOD, some s') ∧ s'.len = 1) ∧
      (∀ (a : Alloc) (p : Handle) (i : Nat), p ≠ NULL →
        ∃ s', plist_ins a (some { sample_four with ptrs := some out, len := 0 }) p i =
          some (PLIST_GOOD, some s') ∧ s'.len = 1) :=
  ⟨by decide, by decide, C8_clear_releases_and_reuses sample_four (by decide)⟩

theorem plist_rejects_null_ptrs {s : plist_t} (h : s.ptrs = none) :
    plist_check (some s) = false := by
  simp [plist_check, h]

/-- C9: on an initialised list `plist_free` returns, and on the record it leaves
every further operation rejects without changing it: `plist_add` and
`plist_ins` return `PLIST_NULL_ERR` for every handle and index, `plist_del`
returns `NULL` for every index, and `plist_clear` and a second `plist_free`
invoke the releaser zero times. -/
theorem C9_free_is_terminal (s : plist_t) (hi : initialised s) :
    ∃ s' calls, plist_free (some s) = some (some s', calls) ∧
      (∀ (a : Alloc) (p : Handle), plist_add a (some s') p = some (PLIST_NULL_ERR, some s')) ∧
      (∀ (a : Alloc) (p : Handle) (i : Nat),
        plist_ins a (some s') p i = some (PLIST_NULL_ERR, some s')) ∧
      (∀ i : Nat, plist_del (some s') i = some (NULL, some s')) ∧
      plist_clear (some s') = some (some s', []) ∧
      plist_free (some s') = some (some s', []) := by
  obtain ⟨buf, fn, _, _, e⟩ := plist_free_spec hi
  have hc : plist_check (some { s with ptrs := none }) = false :=
    plist_rejects_null_ptrs rfl
  refine ⟨_, _, e, ?_, ?_, ?_, ?_, ?_⟩
  · intro a p; simp [plist_add, hc]
  · intro a p i; simp [plist_ins, hc]
  · intro i; unfold plist_del; rw [hc]; rfl
  · simp [plist_clear, hc]
  · simp [plist_free, hc]

/-- C9 at a concrete input: the list of four handles. -/
theorem C9_free_is_terminal_witness :
    initialised sample_four ∧
    ∃ s' calls, plist_free (some sample_four) = some (some s', calls) ∧
      (∀ (a : Alloc) (p : Handle), plist_add a (some s') p = some (PLIST_NULL_ERR, some s')) ∧
      (∀ (a : Alloc) (p : Handle) (i : Nat),
        plist_ins a (some s') p i = some (PLIST_NULL_ERR, some s')) ∧
      (∀ i : Nat, plist_del (some s') i = some (NULL, some s')) ∧
      plist_clear (some s') = some (some s', []) ∧
      plist_free (some s') = some (some s', []) :=
  ⟨by decide, C9_free_is_terminal sample_four (by decide)⟩

theorem plist_del_defined {s : plist_t} {i : Nat} (hi : initialised s) (hpos : 0 < s.len)
    (h : s.len < s.max ∨ s.len - 1 ≤ i) :
    ∃ r s', plist_del (some s) i = some (r, some s') := by
  by_cases hge : s.len - 1 ≤ i
  · obtain ⟨buf, r, _, _, e⟩ := plist_del_last hi hpos hge
    exact ⟨r, _, e⟩
  · obtain ⟨r, s', _, e, _⟩ := plist_del_shift (i := i) hi (by omega) (by omega)
    exact ⟨r, s', e⟩

/-- Whatever `plist_del` returns on a non-empty initialised list: the handle of slot
`min i (len - 1)`, with the later handles one slot to the left. -/
theorem plist_del_result {s : plist_t} {i : Nat} {r : Handle} {l' : Option plist_t}
    (hi : initialised s) (hpos : 0 < s.len) (e : plist_del (some s) i = some (r, l')) :
    ∃ s' i0, l' = some s' ∧ initialised s' ∧ s'.len = s.len - 1 ∧ s'.free = s.free ∧
      s'.max = s.max ∧ i0 < s.len ∧ i0 = min i (s.len - 1) ∧ load s.ptrs i0 = some r ∧
      ∀ j, j < s.len - 1 → load s'.ptrs j = load s.ptrs (if j < i0 then j else j + 1) := by
  by_cases hge : s.len - 1 ≤ i
  · obtain ⟨buf, r0, hp, hh, e0⟩ := plist_del_last hi hpos hge
    rw [e0] at e
    simp only [Option.some.injEq, Prod.mk.injEq] at e
    obtain ⟨e1, e2⟩ := e
    subst e1
    obtain ⟨buf0, hp0, hl0⟩ := initialised_ptrs hi
    obtain ⟨_, i2, i3, i4, i5⟩ := hi
    refine ⟨_, s.len - 1, e2.symm, ⟨?_, i2, i3, ?_, i5⟩, rfl, rfl, rfl, by omega, by omega,
      by rw [hp]; exact hh, fun j hj => ?_⟩
    · rw [hp] at hp0; cases hp0; simp [hl0]
    · dsimp only; omega
    · rw [if_pos hj]
      simp only [load, hp]
      rw [List.getElem?_set_ne (by omega)]
  · by_cases hroom : s.len < s.max
    · obtain ⟨r0, s', hh, e0, i', l', m', f', q1, q2, _⟩ :=
        plist_del_shift (i := i) hi (by omega) hroom
      rw [e0] at e
      simp only [Option.some.injEq, Prod.mk.injEq] at e
      obtain ⟨e1, e2⟩ := e
      subst e1
      refine ⟨s', i, e2.symm, i', l', f', m', by omega, by omega, hh, fun j hj => ?_⟩
      by_cases hji : j < i
      · rw [if_pos hji]; exact q1 j hji
      · rw [if_neg hji]; exact q2 j (by omega) hj
    · have hfull : s.len = s.max := by have := hi.2.2.2.1; omega
      rw [plist_del_shift_full (i := i) hi (by omega) hfull] at e
      simp at e

theorem released_args {s : plist_t} (hi : initialised s) :
    ∃ l1 l2 calls, plist_clear (some s) = some (l1, calls) ∧
      plist_free (some s) = some (l2, calls) ∧
      ∀ c ∈ calls, ∃ j, j < s.len ∧ load s.ptrs j = some c.arg := by
  obtain ⟨buf, out, fn, hp, hf, e1, _, _, _⟩ := plist_clear_spec hi
  obtain ⟨buf', fn', hp', hf', e2⟩ := plist_free_spec hi
  rw [hp] at hp'; cases hp'
  rw [hf] at hf'; cases hf'
  refine ⟨_, _, _, e1, e2, fun c hc => ?_⟩
  obtain ⟨x, hx, rfl⟩ := List.mem_map.1 hc
  obtain ⟨j, hj, rfl⟩ := List.getElem_of_mem hx
  rw [List.length_take] at hj
  refine ⟨j, by omega, ?_⟩
  simp only [load, hp]
  rw [List.getElem_take, List.getElem?_eq_getElem]

/-- Where no double release is proved: on an initialised non-empty list whose
stored handles are pairwise distinct, every handle `h` that `plist_del(l, i)`
returns is not among the handles passed to the releaser by a following
`plist_clear` or `plist_free`, both of which return; and the deletion returns
whenever the list is not full or `i >= len - 1`. On a full list with
`i < len - 1` the deletion returns nothing (`plist_del_shift_full`). -/
theorem deleted_handle_not_released (s : plist_t) (i : Nat)
    (hi : initialised s) (hpos : 0 < s.len) (hd : distinct_handles s) :
    ((s.len < s.max ∨ s.len - 1 ≤ i) → ∃ h l', plist_del (some s) i = some (h, l')) ∧
    ∀ h l', plist_del (some s) i = some (h, l') →
      ∃ l1 c1 l2 c2, plist_clear l' = some (l1, c1) ∧ plist_free l' = some (l2, c2) ∧
        (∀ c ∈ c1, c.arg ≠ h) ∧ (∀ c ∈ c2, c.arg ≠ h) := by
  constructor
  · intro h
    obtain ⟨r, s', e⟩ := plist_del_defined (i := i) hi hpos h
    exact ⟨r, some s', e⟩
  · intro h l' e
    obtain ⟨s', i0, rfl, i', hl, _, _, hi0, _, hh, hq⟩ := plist_del_result hi hpos e
    obtain ⟨l1, l2, calls, e1, e2, hc⟩ := released_args i'
    have key : ∀ c ∈ calls, c.arg ≠ h := by
      intro c hcm heq
      obtain ⟨j, hj, hld⟩ := hc c hcm
      rw [hl] at hj
      rw [hq j hj, heq, ← hh] at hld
      have := hd _ (by split <;> omega) _ hi0 hld
      split at this <;> omega
    exact ⟨l1, calls, l2, calls, e1, e2, key, key⟩

/-- The same at a concrete input: deleting index 1 of the list of four handles. -/
theorem deleted_handle_not_released_at_four :
    initialised sample_four ∧ 0 < sample_four.len ∧ distinct_handles sample_four ∧
    plist_del (some sample_four) 1 =
      some (12, some ⟨some [11, 13, 14, 0, 0, 91, 92, 93, 94, 95], 3, 10,
        some (FreeFn.user 7)⟩) ∧
    ((sample_four.len < sample_four.max ∨ sample_four.len - 1 ≤ 1) →
      ∃ h l', plist_del (some sample_four) 1 = some (h, l')) ∧
    ∀ h l', plist_del (some sample_four) 1 = some (h, l') →
      ∃ l1 c1 l2 c2, plist_clear l' = some (l1, c1) ∧ plist_free l' = some (l2, c2) ∧
        (∀ c ∈ c1, c.arg ≠ h) ∧ (∀ c ∈ c2, c.arg ≠ h) :=
  ⟨by decide, by decide, by decide, by decide,
    deleted_handle_not_released sample_four 1 (by decide) (by decide) (by decide)⟩

/-! ## Deletion on any record, and on the empty list -/

/-- Inversion of `plist_del`: whatever it returns, the record is the old one, or
the old one with a new block content and `len - 1` (modulo `2 ^ 64`). -/
theorem plist_del_some {t : plist_t} {j : Nat} {r : Handle} {l' : Option plist_t}
    (h : plist_del (some t) j = some (r, l')) :
    l' = some t ∨ ∃ buf, l' = some { t with ptrs := some buf, len := size_sub t.len 1 } := by
  unfold plist_del at h
  by_cases hc : plist_check (some t) = true
  · rw [hc, if_neg (by simp)] at h
    dsimp only at h
    right
    rw [Option.bind_eq_some] at h
    obtain ⟨x, _, hx⟩ := h
    cases hs : store x.2 (size_sub t.len 1) NULL with
    | none => rw [hs] at hx; simp at hx
    | some buf =>
      rw [hs] at hx
      simp only [Option.some.injEq, Prod.mk.injEq] at hx
      exact ⟨buf, hx.2.symm⟩
  · have hc' : plist_check (some t) = false := by simpa using hc
    rw [hc'] at h
    simp only [Bool.not_false, if_true, Option.some.injEq, Prod.mk.injEq] at h
    exact Or.inl h.2.symm

/-- On an empty initialised list every call of `plist_del` has undefined
behaviour: the final write `ptrs[--len] = NULL` goes to slot `2 ^ 64 - 1`. -/
theorem plist_del_empty {s : plist_t} (hi : initialised s) (h0 : s.len = 0) (i : Nat) :
    plist_del (some s) i = none := by
  cases hd : plist_del (some s) i with
  | none => rfl
  | some x =>
    exfalso
    obtain ⟨r, l'⟩ := x
    obtain ⟨buf0, hp0, hl0⟩ := initialised_ptrs hi
    have hc := plist_check_of_initialised hi
    have hmax := hi.2.2.1
    unfold plist_del at hd
    rw [hc, if_neg (by simp)] at hd
    dsimp only at hd
    rw [Option.bind_eq_some] at hd
    obtain ⟨x, hx1, hx2⟩ := hd
    have e1 : size_sub s.len 1 = SIZE_MOD - 1 := by
      rw [h0]; decide
    rw [e1] at hx1 hx2
    have hbig : buf0.length < SIZE_MOD - 1 := by
      simp only [PTR_BYTES, PTRDIFF_MAX, SIZE_MOD] at *
      omega
    have hx2b : ∃ b, x.2 = some b ∧ b.length = buf0.length := by
      by_cases hg : i ≥ SIZE_MOD - 1
      · rw [if_pos hg, hp0] at hx1
        simp only [load] at hx1
        rw [List.getElem?_eq_none (by omega)] at hx1
        simp at hx1
      · rw [if_neg hg, hp0] at hx1
        cases hl : load (some buf0) i with
        | none => rw [hl] at hx1; simp at hx1
        | some ret =>
          rw [hl] at hx1
          dsimp only at hx1
          cases hm : memmove (some buf0) i (i + 1) (size_mul (size_sub s.len i) PTR_BYTES) with
          | none => rw [hm] at hx1; simp at hx1
          | some moved =>
            rw [hm] at hx1
            simp only [Option.some.injEq] at hx1
            subst hx1
            exact ⟨moved, rfl, (memmove_getElem? hm).1⟩
    obtain ⟨b, hb, hbl⟩ := hx2b
    rw [hb, store_eq_none (by omega)] at hx2
    simp at hx2

/-- Effect of `plist_ins` at an index below `len` when growth fails. -/
theorem plist_ins_fail {a : Alloc} {s : plist_t} {p : Handle} {i : Nat}
    (hc : plist_check (some s) = true) (hp : p ≠ NULL) (hlt : i < s.len)
    (hg : (plist_alloc a s).1 ≠ PLIST_GOOD) :
    plist_ins a (some s) p i = some (PLIST_ALLOC_ERR, some s) := by
  have e : plist_alloc a s = (PLIST_ALLOC_ERR, s) := by
    rcases plist_alloc_status a s with h | h
    · exact absurd h hg
    · exact h
  have hnc : ¬ ((!plist_check (some s) || p == NULL) = true) := by simp [hc, hp]
  unfold plist_ins
  rw [if_neg hnc]
  dsimp only
  rw [if_neg (by omega), e]
  rfl

/-- On an initialised list `plist_add` always returns, with an initialised record,
which is the old one unless the status is `PLIST_GOOD`. -/
theorem plist_add_any (a : Alloc) {s : plist_t} (p : Handle) (hi : initialised s) :
    ∃ r s', plist_add a (some s) p = some (r, some s') ∧ initialised s' ∧
      (r ≠ PLIST_GOOD → s' = s) := by
  by_cases hp : p = NULL
  · subst hp
    exact ⟨PLIST_NULL_ERR, s, plist_add_null a (some s), hi, fun _ => rfl⟩
  · by_cases hg : (plist_alloc a s).1 = PLIST_GOOD
    · obtain ⟨s', e, i', _⟩ := plist_add_good hi hp hg
      exact ⟨PLIST_GOOD, s', e, i', fun h => absurd rfl h⟩
    · exact ⟨PLIST_ALLOC_ERR, s, plist_add_fail (plist_check_of_initialised hi) hp hg, hi,
        fun _ => rfl⟩

/-- On an initialised list `plist_ins` always returns, with an initialised record,
which is the old one unless the status is `PLIST_GOOD`. -/
theorem plist_ins_any (a : Alloc) {s : plist_t} (p : Handle) (i : Nat) (hi : initialised s) :
    ∃ r s', plist_ins a (some s) p i = some (r, some s') ∧ initialised s' ∧
      (r ≠ PLIST_GOOD → s' = s) := by
  by_cases hge : s.len ≤ i
  · rw [plist_ins_ge hge]
    exact plist_add_any a p hi
  · by_cases hp : p = NULL
    · subst hp
      exact ⟨PLIST_NULL_ERR, s, plist_ins_null a (some s) i, hi, fun _ => rfl⟩
    · by_cases hg : (plist_alloc a s).1 = PLIST_GOOD
      · obtain ⟨s', e, i', _⟩ := plist_ins_good hi hp (Nat.lt_of_not_le hge) hg
        exact ⟨PLIST_GOOD, s', e, i', fun h => absurd rfl h⟩
      · exact ⟨PLIST_ALLOC_ERR, s,
          plist_ins_fail (plist_check_of_initialised hi) hp (Nat.lt_of_not_le hge) hg, hi, fun _ => rfl⟩

/-- Where `len <= max` is kept: by `plist_init`, and on an initialised list by
`plist_add`, `plist_ins`, `plist_clear` and `plist_free` (which all return) and by
every call of `plist_del` that returns. -/
theorem len_le_max_kept (a : Alloc) (s l0 : plist_t) (freefn : Option FreeFn) (p : Handle)
    (i : Nat) (hi : initialised s) :
    (∀ t, (plist_init a (some l0) freefn).2 = some t → t.len ≤ t.max) ∧
    (∃ r s', plist_add a (some s) p = some (r, some s') ∧ s'.len ≤ s'.max) ∧
    (∃ r s', plist_ins a (some s) p i = some (r, some s') ∧ s'.len ≤ s'.max) ∧
    (∃ s' calls, plist_clear (some s) = some (some s', calls) ∧ s'.len ≤ s'.max) ∧
    (∃ s' calls, plist_free (some s) = some (some s', calls) ∧ s'.len ≤ s'.max) ∧
    (∀ r l', plist_del (some s) i = some (r, l') → ∃ s', l' = some s' ∧ s'.len ≤ s'.max) := by
  refine ⟨?_, ?_, ?_, ?_, ?_, ?_⟩
  · intro t ht
    simp only [plist_init, Option.some.injEq] at ht
    subst ht
    exact Nat.zero_le _
  · obtain ⟨r, s', e, i', _⟩ := plist_add_any a p hi
    exact ⟨r, s', e, i'.2.2.2.1⟩
  · obtain ⟨r, s', e, i', _⟩ := plist_ins_any a p i hi
    exact ⟨r, s', e, i'.2.2.2.1⟩
  · obtain ⟨buf, out, fn, _, _, e, _, i', _⟩ := plist_clear_spec hi
    exact ⟨_, _, e, i'.2.2.2.1⟩
  · obtain ⟨buf, fn, _, _, e⟩ := plist_free_spec hi
    exact ⟨_, _, e, hi.2.2.2.1⟩
  · intro r l' e
    by_cases h0 : s.len = 0
    · rw [plist_del_empty hi h0 i] at e
      simp at e
    · obtain ⟨s', _, rfl, i', _⟩ := plist_del_result hi (by omega) e
      exact ⟨s', rfl, i'.2.2.2.1⟩

/-- C11: on the empty list that `plist_init` leaves (`len = 0 <= max = 10`) the call
`plist_del(l, 0)` does not keep `len <= max`: it decrements `len` to
`0 - 1 = 2 ^ 64 - 1` (arithmetic of `size_t`), far above `max`, and writes `NULL`
to slot `2 ^ 64 - 1`, outside the block, which is undefined behaviour. -/
theorem C11_del_on_empty_list_underflows :
    (plist_init (some fun k => 100 + k) (some sample_four) none).2 = some sample_empty ∧
    initialised sample_empty ∧ sample_empty.len ≤ sample_empty.max ∧
    size_sub sample_empty.len 1 = 2 ^ 64 - 1 ∧
    ¬ (size_sub sample_empty.len 1 ≤ sample_empty.max) ∧
    store sample_empty.ptrs (size_sub sample_empty.len 1) NULL = none ∧
    plist_del (some sample_empty) 0 = none := by
  decide

/-- Effect of `plist_add` with a non-null handle on a list with a spare slot. -/
theorem plist_add_room (a : Alloc) {s : plist_t} {p : Handle} (hi : initialised s)
    (hlt : s.len < s.max) (hp : p ≠ NULL) :
    ∃ s', plist_add a (some s) p = some (PLIST_GOOD, some s') ∧ initialised s' ∧
      s'.len = s.len + 1 ∧ s'.free = s.free ∧ s'.max = s.max ∧
      load s'.ptrs s.len = some p ∧ ∀ k, k < s.len → load s'.ptrs k = load s.ptrs k := by
  have hg : (plist_alloc a s).1 = PLIST_GOOD := by
    unfold plist_alloc; rw [if_pos hlt]
  have hs : (plist_alloc a s).2 = s := by
    unfold plist_alloc; rw [if_pos hlt]
  obtain ⟨s', e, i', l, f, m, q1, q2⟩ := plist_add_good hi hp hg
  exact ⟨s', e, i', l, f, by rw [m, hs], q1, q2⟩

/-- Effect of `plist_ins` below `len` with a non-null handle on a list with a
spare slot. -/
theorem plist_ins_room (a : Alloc) {s : plist_t} {p : Handle} {i : Nat} (hi : initialised s)
    (hlt : s.len < s.max) (hp : p ≠ NULL) (hil : i < s.len) :
    ∃ s', plist_ins a (some s) p i = some (PLIST_GOOD, some s') ∧ initialised s' ∧
      s'.len = s.len + 1 ∧ s'.free = s.free ∧ s'.max = s.max ∧
      load s'.ptrs i = some p ∧ (∀ j, j < i → load s'.ptrs j = load s.ptrs j) ∧
      ∀ j, i ≤ j → j < s.len → load s'.ptrs (j + 1) = load s.ptrs j := by
  have hg : (plist_alloc a s).1 = PLIST_GOOD := by
    unfold plist_alloc; rw [if_pos hlt]
  have hs : (plist_alloc a s).2 = s := by
    unfold plist_alloc; rw [if_pos hlt]
  obtain ⟨s', e, i', l, f, m, q1, q2, q3⟩ := plist_ins_good hi hp hil hg
  exact ⟨s', e, i', l, f, by rw [m, hs], q1, q2, q3⟩

/-- The stored handles are determined by the content of slots `[0, len)`. -/
theorem stored_eq_of_load {s : plist_t} (hi : initialised s) {l : List Handle}
    (hl : l.length = s.len) (h : ∀ k, k < s.len → load s.ptrs k = l[k]?) : stored s = l := by
  obtain ⟨buf, hp, hb⟩ := initialised_ptrs hi
  have hmax := hi.2.2.2.1
  unfold stored
  rw [hp]
  simp only [Option.getD_some]
  apply List.ext_getElem?
  intro k
  by_cases hk : k < s.len
  · rw [List.getElem?_take_of_lt hk, ← h k hk, hp]
    rfl
  · rw [List.getElem?_eq_none (by simp; omega), List.getElem?_eq_none (by omega)]

/-- Handle at a slot below `len`, read off the stored handles. -/
theorem load_eq_stored {s : plist_t} {k : Nat} (hp : s.ptrs.isSome) (hk : k < s.len) :
    load s.ptrs k = (stored s)[k]? := by
  cases hb : s.ptrs with
  | none => simp [hb] at hp
  | some buf =>
    simp only [load, stored, hb, Option.getD_some]
    rw [List.getElem?_take_of_lt hk]

/-- C12 (as amended): the scenario of the specification, run on the code with
any non-null handles `A`, `B`, `C`, `D` after a successful `plist_init` with the
default releaser: the adds give `len = 3`, the insertion gives `A,D,B,C`, the
removal at index 10 returns `C` and leaves `A,D,B` with `len = 3`, `plist_clear`
invokes the default releaser on `A`, `D`, `B` in that order and sets `len = 0`,
and `plist_free` sets `ptrs` to `NULL`. -/
theorem C12_scenario_on_code (a : Alloc) (A B C D : Handle)
    (hA : A ≠ NULL) (hB : B ≠ NULL) (hC : C ≠ NULL) (hD : D ≠ NULL)
    (hinit : (plist_init a (some ⟨none, 0, 0, none⟩) none).1 = PLIST_GOOD) :
    scenario a A B C D = some (scenario_observed A B C D) := by
  obtain ⟨s0, e0, i0, l0, m0, f0⟩ := plist_init_good hinit
  have hm0 : s0.max = 10 := m0
  obtain ⟨s1, e1, i1, l1, f1, m1, p1, _⟩ := plist_add_room a i0 (by omega) hA
  obtain ⟨s2, e2, i2, l2, f2, m2, p2, k2⟩ := plist_add_room a i1 (by omega) hB
  obtain ⟨s3, e3, i3, l3, f3, m3, p3, k3⟩ := plist_add_room a i2 (by omega) hC
  obtain ⟨s4, e4, i4, l4, f4, m4, p4, j4, k4⟩ :=
    plist_ins_room (i := 1) a i3 (by omega) hD (by omega)
  -- content after the insertion
  have n1 : s1.len = 1 := by omega
  have n2 : s2.len = 2 := by omega
  have n3 : s3.len = 3 := by omega
  rw [l0] at p1
  rw [n1] at p2 k2
  rw [n2] at p3 k3
  rw [n3] at k4
  have a0 : load s4.ptrs 0 = some A := by
    rw [j4 0 (by omega), k3 0 (by omega), k2 0 (by omega)]; exact p1
  have a1 : load s4.ptrs 1 = some D := p4
  have a2 : load s4.ptrs 2 = some B := by
    rw [k4 1 (by omega) (by omega), k3 1 (by omega)]; exact p2
  have a3 : load s4.ptrs 3 = some C := by
    rw [k4 2 (by omega) (by omega)]; exact p3
  have hl4 : s4.len = 4 := by omega
  have st4 : stored s4 = [A, D, B, C] := by
    apply stored_eq_of_load i4 (by simp [hl4])
    intro k hk
    rw [hl4] at hk
    interval_cases k
    · exact a0
    · exact a1
    · exact a2
    · exact a3
  -- the removal
  obtain ⟨r, s5, e5⟩ := plist_del_defined (i := 10) i4 (by omega) (Or.inr (by omega))
  obtain ⟨s5', i0', h5, i5, l5, f5, m5, _, hi0, hr, k5⟩ := plist_del_result i4 (by omega) e5
  cases h5
  have hi0' : i0' = 3 := by omega
  rw [hi0', a3] at hr
  cases hr
  have hl5 : s5.len = 3 := by omega
  have st5 : stored s5 = [A, D, B] := by
    apply stored_eq_of_load i5 (by simp [hl5])
    intro k hk
    rw [hl5] at hk
    have := k5 k (by omega)
    rw [hi0', if_pos hk] at this
    rw [this]
    interval_cases k
    · exact a0
    · exact a1
    · exact a2
  -- the clear and the destroy
  obtain ⟨buf5, out, fn, hp5, hf5, e6, _, i6, _⟩ := plist_clear_spec i5
  have hfn : fn = FreeFn.def_free := by
    rw [f5, f4, f3, f2, f1, f0] at hf5
    simpa using hf5.symm
  have hcalls : (buf5.take s5.len).map (Call.mk fn) =
      [⟨FreeFn.def_free, A⟩, ⟨FreeFn.def_free, D⟩, ⟨FreeFn.def_free, B⟩] := by
    have : buf5.take s5.len = stored s5 := by
      unfold stored; rw [hp5]; rfl
    rw [this, st5, hfn]
    rfl
  rw [hcalls] at e6
  obtain ⟨buf6, fn6, hp6, _, e7⟩ := plist_free_spec i6
  -- assembling the log
  unfold scenario
  simp only [e0, e1, e2, e3, e4, e5, e6, e7, Option.some_bind, Option.map_some', Option.getD_some,
    hinit, st4, st5, hl5]
  simp [scenario_observed, scenario_specified, n3]

/-- C12 at a concrete input: handles 1, 2, 3, 4. -/
theorem C12_scenario_on_code_witness :
    (1 : Handle) ≠ NULL ∧ (2 : Handle) ≠ NULL ∧ (3 : Handle) ≠ NULL ∧ (4 : Handle) ≠ NULL ∧
    (plist_init grant (some ⟨none, 0, 0, none⟩) none).1 = PLIST_GOOD ∧
    scenario grant 1 2 3 4 = some (scenario_observed 1 2 3 4) :=
  ⟨by decide, by decide, by decide, by decide, by decide,
    C12_scenario_on_code grant 1 2 3 4 (by decide) (by decide) (by decide) (by decide)
      (by decide)⟩

/-- C12 (as stated) fails: with handles 1, 2, 3, 4 the scenario does not give
the log of the specification; after the removal of `C` the length is 3, not 2,
and `plist_clear` releases `A`, `D` and `B`, not only `A` and `D`. -/
theorem C12_scenario_as_specified_fails :
    scenario grant 1 2 3 4 ≠ some (scenario_specified 1 2 3 4) ∧
    (scenario grant 1 2 3 4).map ScenarioLog.len_deleted = some 3 ∧
    (scenario grant 1 2 3 4).map ScenarioLog.released =
      some [⟨FreeFn.def_free, 1⟩, ⟨FreeFn.def_free, 4⟩, ⟨FreeFn.def_free, 2⟩] := by
  decide

/-- C13: `plist_init` returns `PLIST_NULL_ERR` when the list record is absent.
Otherwise it binds the releaser to the supplied function, or to `def_free` when
none is supplied (never null), sets `len = 0` and `max = 10`, and stores the
result of `malloc` in `ptrs`: when the allocation succeeds it returns
`PLIST_GOOD` and the buffer is non-null; when it fails it returns
`PLIST_ALLOC_ERR` with `ptrs = NULL`, and then `plist_add`, `plist_ins` and
`plist_del` all reject. -/
theorem C13_init_binds_and_allocates (a : Alloc) (l0 : plist_t) (freefn : Option FreeFn) :
    plist_init a none freefn = (PLIST_NULL_ERR, none) ∧
    ∃ s, (plist_init a (some l0) freefn).2 = some s ∧
      s.free = some (match freefn with
        | none => FreeFn.def_free
        | some f => f) ∧
      s.free ≠ none ∧ s.len = 0 ∧ s.max = 10 ∧
      s.ptrs = malloc a (size_mul DEF_MAX PTR_BYTES) ∧
      (s.ptrs ≠ none → (plist_init a (some l0) freefn).1 = PLIST_GOOD ∧ initialised s) ∧
      (s.ptrs = none → (plist_init a (some l0) freefn).1 = PLIST_ALLOC_ERR ∧
        (∀ (b : Alloc) (p : Handle), plist_add b (some s) p = some (PLIST_NULL_ERR, some s)) ∧
        (∀ (b : Alloc) (p : Handle) (i : Nat),
          plist_ins b (some s) p i = some (PLIST_NULL_ERR, some s)) ∧
        ∀ i : Nat, plist_del (some s) i = some (NULL, some s)) := by
  refine ⟨rfl, _, rfl, rfl, by simp, rfl, rfl, rfl, ?_, ?_⟩
  · intro hne
    have hst : (plist_init a (some l0) freefn).1 = PLIST_GOOD := by
      cases hm : malloc a (size_mul DEF_MAX PTR_BYTES) with
      | none => exact absurd hm hne
      | some buf => simp [plist_init, hm]
    obtain ⟨s, e, i', _⟩ := plist_init_good hst
    simp only [plist_init, Option.some.injEq] at e
    rw [← e] at i'
    exact ⟨hst, i'⟩
  · intro hnone
    have hm : malloc a (size_mul DEF_MAX PTR_BYTES) = none := hnone
    have hc := plist_rejects_null_ptrs hnone
    refine ⟨by simp [plist_init, hm], ?_, ?_, ?_⟩
    · intro b p; simp [plist_add, hc]
    · intro b p i; simp [plist_ins, hc]
    · intro i; unfold plist_del; rw [hc]; rfl

/-- C13 at concrete inputs: a granted and a refused allocation. -/
theorem C13_init_binds_and_allocates_witness :
    (plist_init grant (some sample_four) (some (FreeFn.user 3))).1 = PLIST_GOOD ∧
    (plist_init none (some sample_four) none) =
      (PLIST_ALLOC_ERR, some ⟨none, 0, 10, some FreeFn.def_free⟩) ∧
    plist_init none none none = (PLIST_NULL_ERR, none) ∧
    ∃ s, (plist_init none (some sample_four) none).2 = some s ∧
      s.free = some FreeFn.def_free ∧
      s.free ≠ none ∧ s.len = 0 ∧ s.max = 10 ∧
      s.ptrs = malloc none (size_mul DEF_MAX PTR_BYTES) ∧
      (s.ptrs ≠ none → (plist_init none (some sample_four) none).1 = PLIST_GOOD ∧
        initialised s) ∧
      (s.ptrs = none → (plist_init none (some sample_four) none).1 = PLIST_ALLOC_ERR ∧
        (∀ (b : Alloc) (p : Handle), plist_add b (some s) p = some (PLIST_NULL_ERR, some s)) ∧
        (∀ (b : Alloc) (p : Handle) (i : Nat),
          plist_ins b (some s) p i = some (PLIST_NULL_ERR, some s)) ∧
        ∀ i : Nat, plist_del (some s) i = some (NULL, some s)) :=
  ⟨by decide, by decide, C13_init_binds_and_allocates none sample_four none⟩

/-- C15: on an initialised list with `len = n <= max`, `plist_clear` makes exactly
one releaser call per handle of slots `[0, n)` (in slot order), and a following
`plist_free`, or a following second `plist_clear`, makes no releaser call. -/
theorem C15_released_exactly_once (s : plist_t) (hi : initialised s) :
    ∃ buf fn s1, s.ptrs = some buf ∧ s.free = some fn ∧
      plist_clear (some s) = some (some s1, (buf.take s.len).map (Call.mk fn)) ∧
      ((buf.take s.len).map (Call.mk fn)).length = s.len ∧
      (∃ s2, plist_free (some s1) = some (some s2, [])) ∧
      (∃ s3, plist_clear (some s1) = some (some s3, [])) := by
  obtain ⟨buf, out, fn, hp, hf, e, hl, i1, _⟩ := plist_clear_spec hi
  obtain ⟨buf0, hp0, hl0⟩ := initialised_ptrs hi
  rw [hp] at hp0; cases hp0
  have hmax := hi.2.2.2.1
  refine ⟨buf, fn, _, hp, hf, e, by simp; omega, ?_, ?_⟩
  · obtain ⟨b, f, _, _, e2⟩ := plist_free_spec i1
    exact ⟨_, by simpa using e2⟩
  · obtain ⟨b, o, f, _, _, e3, _⟩ := plist_clear_spec i1
    exact ⟨_, by simpa using e3⟩

/-- C15 at a concrete input: the list of four handles. -/
theorem C15_released_exactly_once_witness :
    initialised sample_four ∧
    ∃ buf fn s1, sample_four.ptrs = some buf ∧ sample_four.free = some fn ∧
      plist_clear (some sample_four) =
        some (some s1, (buf.take sample_four.len).map (Call.mk fn)) ∧
      ((buf.take sample_four.len).map (Call.mk fn)).length = sample_four.len ∧
      (∃ s2, plist_free (some s1) = some (some s2, [])) ∧
      (∃ s3, plist_clear (some s1) = some (some s3, [])) :=
  ⟨by decide, C15_released_exactly_once sample_four (by decide)⟩

/-- C18: on an initialised list with `len = n <= max`, `plist_free` invokes the
bound releaser exactly on the handles of slots `0, ..., n - 1`, once each and in
that order, sets `ptrs` to `NULL`, and leaves `len`, `max` and the releaser as
they were. -/
theorem C18_free_releases_and_keeps_fields (s : plist_t) (hi : initialised s) :
    ∃ buf fn s', s.ptrs = some buf ∧ s.free = some fn ∧
      plist_free (some s) = some (some s', (buf.take s.len).map (Call.mk fn)) ∧
      s'.ptrs = none ∧ s'.len = s.len ∧ s'.max = s.max ∧ s'.free = s.free := by
  obtain ⟨buf, fn, hp, hf, e⟩ := plist_free_spec hi
  exact ⟨buf, fn, _, hp, hf, e, rfl, rfl, rfl, rfl⟩

/-- C18 at a concrete input: the list of four handles, whose `len` stays 4. -/
theorem C18_free_releases_and_keeps_fields_witness :
    initialised sample_four ∧
    plist_free (some sample_four) =
      some (some ⟨none, 4, 10, some (FreeFn.user 7)⟩,
        [⟨FreeFn.user 7, 11⟩, ⟨FreeFn.user 7, 12⟩, ⟨FreeFn.user 7, 13⟩, ⟨FreeFn.user 7, 14⟩]) ∧
    ∃ buf fn s', sample_four.ptrs = some buf ∧ sample_four.free = some fn ∧
      plist_free (some sample_four) =
        some (some s', (buf.take sample_four.len).map (Call.mk fn)) ∧
      s'.ptrs = none ∧ s'.len = sample_four.len ∧ s'.max = sample_four.max ∧
      s'.free = sample_four.free :=
  ⟨by decide, by decide, C18_free_releases_and_keeps_fields sample_four (by decide)⟩

/-- Whatever `plist_clear` returns, the record has the `max` it had. -/
theorem plist_clear_some {t : plist_t} {l' : Option plist_t} {calls : List Call}
    (h : plist_clear (some t) = some (l', calls)) : ∃ t', l' = some t' ∧ t'.max = t.max := by
  unfold plist_clear at h
  by_cases hc : plist_check (some t) = true
  · rw [if_pos hc] at h
    dsimp only at h
    cases hl : plist_clear_loop t.free t.len 0 t.ptrs with
    | none => rw [hl] at h; simp at h
    | some x =>
      rw [hl] at h
      simp only [Option.some.injEq, Prod.mk.injEq] at h
      exact ⟨_, h.1.symm, rfl⟩
  · rw [if_neg hc] at h
    simp only [Option.some.injEq, Prod.mk.injEq] at h
    exact ⟨t, h.1.symm, rfl⟩

/-- C17: on an initialised list (`len <= max`; `2 * max` does not overflow), a
successful `plist_add` or `plist_ins` leaves `max` unchanged when `len < max`
and sets it to exactly `2 * max` when `len = max`; the reallocation keeps the
content of slots `[0, len)`; no call of `plist_del` or `plist_clear`, on any
record, returns a record with a different `max`. -/
theorem C17_growth_policy (a : Alloc) (s : plist_t) (p : Handle) (i : Nat)
    (hi : initialised s) (hp : p ≠ NULL) (hg : growth_succeeds a s) :
    2 * s.max < SIZE_MOD ∧
    (∃ s', plist_add a (some s) p = some (PLIST_GOOD, some s') ∧
      (s.len < s.max → s'.max = s.max) ∧ (s.len = s.max → s'.max = 2 * s.max) ∧
      ∀ k, k < s.len → load s'.ptrs k = load s.ptrs k) ∧
    (∃ s', plist_ins a (some s) p i = some (PLIST_GOOD, some s') ∧
      (s.len < s.max → s'.max = s.max) ∧ (s.len = s.max → s'.max = 2 * s.max)) ∧
    (∀ k, k < s.len → load (plist_alloc a s).2.ptrs k = load s.ptrs k) ∧
    (∀ (t : plist_t) (j : Nat) (r : Handle) (l' : Option plist_t),
      plist_del (some t) j = some (r, l') → ∃ t', l' = some t' ∧ t'.max = t.max) ∧
    (∀ (t : plist_t) (l' : Option plist_t) (calls : List Call),
      plist_clear (some t) = some (l', calls) → ∃ t', l' = some t' ∧ t'.max = t.max) ∧
    ∃ s' calls, plist_clear (some s) = some (some s', calls) ∧ s'.max = s.max := by
  have hg' := (growth_succeeds_iff a s).1 hg
  obtain ⟨_, _, _, _, hcase, hkeep⟩ := plist_alloc_good hi hg'
  have hmax : ((s.len < s.max → (plist_alloc a s).2.max = s.max) ∧
      (s.len = s.max → (plist_alloc a s).2.max = 2 * s.max)) := by
    rcases hcase with ⟨h1, h2⟩ | ⟨h1, h2⟩
    · exact ⟨fun _ => by rw [h2], fun h => by omega⟩
    · exact ⟨fun h => by omega, fun _ => h2⟩
  have hle := hi.2.2.2.1
  obtain ⟨sa, ea, _, _, _, ma, _, ka⟩ := plist_add_good hi hp hg'
  refine ⟨?_, ⟨sa, ea, fun h => by rw [ma]; exact hmax.1 h, fun h => by rw [ma]; exact hmax.2 h,
    ka⟩, ?_, fun k hk => hkeep k (by omega), ?_, ?_, ?_⟩
  · have := hi.2.2.1
    simp only [PTR_BYTES, PTRDIFF_MAX, SIZE_MOD] at *
    omega
  · by_cases hge : s.len ≤ i
    · rw [plist_ins_ge hge]
      exact ⟨sa, ea, fun h => by rw [ma]; exact hmax.1 h, fun h => by rw [ma]; exact hmax.2 h⟩
    · obtain ⟨sb, eb, _, _, _, mb, _⟩ := plist_ins_good hi hp (Nat.lt_of_not_le hge) hg'
      exact ⟨sb, eb, fun h => by rw [mb]; exact hmax.1 h, fun h => by rw [mb]; exact hmax.2 h⟩
  · intro t j r l' h
    rcases plist_del_some h with h1 | ⟨buf, h1⟩
    · exact ⟨t, h1, rfl⟩
    · exact ⟨_, h1, rfl⟩
  · intro t l' calls h
    exact plist_clear_some h
  · obtain ⟨buf, out, fn, _, _, e, _⟩ := plist_clear_spec hi
    exact ⟨_, _, e, rfl⟩

/-- C17 at a concrete input: the full list grows from 10 to 20 slots. -/
theorem C17_growth_policy_witness :
    initialised sample_full ∧ (42 : Handle) ≠ NULL ∧ growth_succeeds grant sample_full ∧
    ((plist_add grant (some sample_full) 42).map fun r => (r.1, r.2.map plist_t.max)) =
      some (PLIST_GOOD, some 20) ∧
    ((plist_del (some sample_four) 1).map fun r => r.2.map plist_t.max) = some (some 10) ∧
    (2 * sample_full.max < SIZE_MOD ∧
    (∃ s', plist_add grant (some sample_full) 42 = some (PLIST_GOOD, some s') ∧
      (sample_full.len < sample_full.max → s'.max = sample_full.max) ∧
      (sample_full.len = sample_full.max → s'.max = 2 * sample_full.max) ∧
      ∀ k, k < sample_full.len → load s'.ptrs k = load sample_full.ptrs k) ∧
    (∃ s', plist_ins grant (some sample_full) 42 3 = some (PLIST_GOOD, some s') ∧
      (sample_full.len < sample_full.max → s'.max = sample_full.max) ∧
      (sample_full.len = sample_full.max → s'.max = 2 * sample_full.max)) ∧
    (∀ k, k < sample_full.len →
      load (plist_alloc grant sample_full).2.ptrs k = load sample_full.ptrs k) ∧
    (∀ (t : plist_t) (j : Nat) (r : Handle) (l' : Option plist_t),
      plist_del (some t) j = some (r, l') → ∃ t', l' = some t' ∧ t'.max = t.max) ∧
    (∀ (t : plist_t) (l' : Option plist_t) (calls : List Call),
      plist_clear (some t) = some (l', calls) → ∃ t', l' = some t' ∧ t'.max = t.max) ∧
    ∃ s' calls, plist_clear (some sample_full) = some (some s', calls) ∧
      s'.max = sample_full.max) :=
  ⟨by decide, by decide, by decide, by decide, by decide,
    C17_growth_policy grant sample_full 42 3 (by decide) (by decide) (by decide)⟩

/-- Non-null slots, read through `load`. -/
theorem nonnull_of_load {s : plist_t} {j : Nat} {h : Handle} (e : load s.ptrs j = some h)
    (hn : h ≠ NULL) : load s.ptrs j ≠ none ∧ load s.ptrs j ≠ some NULL := by
  rw [e]
  exact ⟨by simp, by simpa using hn⟩

/-- Where "every slot in `[0, len)` holds a non-null handle" is kept: by
`plist_init`, and on an initialised list satisfying it by `plist_add`,
`plist_ins` and `plist_clear` (which all return) and by every call of `plist_del`
that returns. -/
theorem nonnull_slots_kept (a : Alloc) (s l0 : plist_t) (freefn : Option FreeFn) (p : Handle)
    (i : Nat) (hi : initialised s) (hn : nonnull_slots s) :
    (∀ t, (plist_init a (some l0) freefn).2 = some t → nonnull_slots t) ∧
    (∃ r s', plist_add a (some s) p = some (r, some s') ∧ nonnull_slots s') ∧
    (∃ r s', plist_ins a (some s) p i = some (r, some s') ∧ nonnull_slots s') ∧
    (∃ s' calls, plist_clear (some s) = some (some s', calls) ∧ nonnull_slots s') ∧
    (∀ r l', plist_del (some s) i = some (r, l') → ∃ s', l' = some s' ∧ nonnull_slots s') := by
  have hadd : ∃ r s', plist_add a (some s) p = some (r, some s') ∧ nonnull_slots s' := by
    by_cases hp : p = NULL
    · subst hp
      exact ⟨PLIST_NULL_ERR, s, plist_add_null a (some s), hn⟩
    · by_cases hg : (plist_alloc a s).1 = PLIST_GOOD
      · obtain ⟨s', e, _, l, _, _, q1, q2⟩ := plist_add_good hi hp hg
        refine ⟨PLIST_GOOD, s', e, fun j hj => ?_⟩
        by_cases hjl : j < s.len
        · rw [q2 j hjl]; exact hn j hjl
        · have : j = s.len := by omega
          subst this
          exact nonnull_of_load q1 hp
      · exact ⟨PLIST_ALLOC_ERR, s, plist_add_fail (plist_check_of_initialised hi) hp hg, hn⟩
  refine ⟨?_, hadd, ?_, ?_, ?_⟩
  · intro t ht
    simp only [plist_init, Option.some.injEq] at ht
    subst ht
    intro j hj
    exact absurd hj (Nat.not_lt_zero j)
  · by_cases hge : s.len ≤ i
    · rw [plist_ins_ge hge]; exact hadd
    · have hlt : i < s.len := Nat.lt_of_not_le hge
      by_cases hp : p = NULL
      · subst hp
        exact ⟨PLIST_NULL_ERR, s, plist_ins_null a (some s) i, hn⟩
      · by_cases hg : (plist_alloc a s).1 = PLIST_GOOD
        · obtain ⟨s', e, _, l, _, _, q1, q2, q3⟩ := plist_ins_good hi hp hlt hg
          refine ⟨PLIST_GOOD, s', e, fun j hj => ?_⟩
          by_cases hji : j < i
          · rw [q2 j hji]; exact hn j (by omega)
          · by_cases hje : j = i
            · subst hje; exact nonnull_of_load q1 hp
            · obtain ⟨k, rfl⟩ : ∃ k, j = k + 1 := ⟨j - 1, by omega⟩
              rw [q3 k (by omega) (by omega)]
              exact hn k (by omega)
        · exact ⟨PLIST_ALLOC_ERR, s,
            plist_ins_fail (plist_check_of_initialised hi) hp hlt hg, hn⟩
  · obtain ⟨buf, out, fn, _, _, e, _⟩ := plist_clear_spec hi
    exact ⟨_, _, e, fun j hj => absurd hj (Nat.not_lt_zero j)⟩
  · intro r l' e
    by_cases h0 : s.len = 0
    · rw [plist_del_empty hi h0 i] at e
      simp at e
    · obtain ⟨s', i0, rfl, _, l, _, _, hi0, _, _, q⟩ := plist_del_result hi (by omega) e
      refine ⟨s', rfl, fun j hj => ?_⟩
      rw [l] at hj
      rw [q j hj]
      exact hn _ (by split <;> omega)

/-- C14: on the full ten-slot list, whose stored slots all hold non-null handles,
the call `plist_del(l, 0)` (a non-empty list, an index in range) has undefined
behaviour, the `memmove` reading slot 10 outside the block, so that no record
results in which the predicate could hold. -/
theorem C14_del_on_full_list_leaves_no_record :
    initialised sample_full ∧ nonnull_slots sample_full ∧ 0 < sample_full.len ∧
    sample_full.len ≤ sample_full.max ∧
    (plist_del (some sample_full) 0).isSome = false := by
  decide

/-- The remove-last test of `plist_del` on an empty list, `i >= 0 - 1` in `size_t`
arithmetic, holds for exactly one index: `SIZE_MAX = 2 ^ 64 - 1`. -/
theorem del_test_on_empty (i : Nat) (hi : i < SIZE_MOD) :
    i ≥ size_sub 0 1 ↔ i = SIZE_MOD - 1 := by
  have e : size_sub 0 1 = SIZE_MOD - 1 := by decide
  rw [e]
  simp only [SIZE_MOD] at *
  omega

/-- C16: on the empty list that `plist_init` leaves, the remove-last test
`i >= len - 1` of `plist_del` is false for `i = 0` (`len - 1` wraps around to
`2 ^ 64 - 1`), so the call takes the shifting branch: it reads `ptrs[0]`, moves
`0 - 0 = 0` slots, and then writes `NULL` to slot `2 ^ 64 - 1`. -/
theorem C16_empty_list_takes_shifting_branch :
    initialised sample_empty ∧ sample_empty.len = 0 ∧
    size_sub sample_empty.len 1 = 2 ^ 64 - 1 ∧
    ¬ (0 ≥ size_sub sample_empty.len 1) ∧
    plist_del_slots sample_empty 0 = [0, 2 ^ 64 - 1] ∧
    plist_del (some sample_empty) 0 = none := by
  decide

/-- The slots `plist_del` touches on a non-empty initialised list all lie inside
the block exactly when the index selects the last element or the list is not full,
and exactly then the call is defined. -/
theorem plist_del_slots_in_block {s : plist_t} (hi : initialised s) (hpos : 0 < s.len)
    (i : Nat) :
    ((∀ k ∈ plist_del_slots s i, k < s.max) ↔ (s.len - 1 ≤ i ∨ s.len < s.max)) ∧
    ((plist_del (some s) i).isSome ↔ (s.len - 1 ≤ i ∨ s.len < s.max)) := by
  have i3 := hi.2.2.1
  have i4 := hi.2.2.2.1
  have e1 : size_sub s.len 1 = s.len - 1 := size_sub_one hpos i4 i3
  constructor
  · unfold plist_del_slots
    rw [e1]
    by_cases hge : s.len - 1 ≤ i
    · rw [if_pos hge]
      simp only [hge, true_or, iff_true]
      intro k hk
      simp only [List.mem_cons, List.mem_singleton, List.not_mem_nil, or_false, or_self] at hk
      omega
    · rw [if_neg hge]
      have hsh : size_mul (size_sub s.len i) PTR_BYTES / PTR_BYTES = s.len - i :=
        shift_bytes (by omega) i4 i3
      dsimp only
      rw [hsh]
      simp only [hge, false_or]
      constructor
      · intro h
        have := h (i + 1 + (s.len - i - 1)) (by
          simp only [List.mem_append, List.mem_map, List.mem_range, List.mem_singleton,
            List.mem_cons, List.not_mem_nil, or_false]
          exact Or.inl (Or.inl (Or.inr ⟨s.len - i - 1, by omega, rfl⟩)))
        omega
      · intro h k hk
        simp only [List.mem_append, List.mem_map, List.mem_range, List.mem_singleton,
          List.mem_cons, List.not_mem_nil, or_false] at hk
        rcases hk with ((hk | ⟨x, hx, rfl⟩) | ⟨x, hx, rfl⟩) | hk <;> omega
  · constructor
    · intro h
      by_cases hge : s.len - 1 ≤ i
      · exact Or.inl hge
      · right
        by_contra hfull
        have hd := plist_del_shift_full (i := i) hi (Nat.lt_of_not_le (by omega))
          (Nat.le_antisymm i4 (Nat.le_of_not_lt hfull))
        rw [hd] at h
        simp at h
    · intro h
      obtain ⟨r, s', e⟩ := plist_del_defined (i := i) hi hpos (Or.symm h)
      rw [e]; rfl

/-- C19: on the full ten-slot list (`1 <= len = max = 10`) the call
`plist_del(l, 0)` touches slot 10, which is not below `max`: its `memmove` of
`len - i = 10` slots reads slots 1 to 10 of a block whose last slot is 9. -/
theorem C19_del_full_list_touches_slot_max :
    initialised sample_full ∧ 1 ≤ sample_full.len ∧ sample_full.len ≤ sample_full.max ∧
    plist_del_slots sample_full 0 =
      [0, 1, 2, 3, 4, 5, 6, 7, 8, 9, 10, 0, 1, 2, 3, 4, 5, 6, 7, 8, 9, 9] ∧
    sample_full.max ∈ plist_del_slots sample_full 0 ∧
    ¬ (∀ k ∈ plist_del_slots sample_full 0, k < sample_full.max) ∧
    plist_del (some sample_full) 0 = none := by
  decide

/-- Insertion followed by removal at the same position, on an initialised list
with growth succeeding: the removal returns `p` and restores `len` and slots
`[0, len)` whenever it appends (`i >= len`) or the insertion leaves a spare slot;
when `i < len` and the insertion fills the block, the removal overruns it. -/
theorem ins_then_del {a : Alloc} {s : plist_t} {p : Handle} (i : Nat) (hi : initialised s)
    (hp : p ≠ NULL) (hg : growth_succeeds a s) :
    ∃ s1, plist_ins a (some s) p i = some (PLIST_GOOD, some s1) ∧
      ((s.len ≤ i ∨ s.len + 1 < s1.max) →
        ∃ s2, plist_del (some s1) (min i s.len) = some (p, some s2) ∧ s2.len = s.len ∧
          ∀ k, k < s.len → load s2.ptrs k = load s.ptrs k) ∧
      (i < s.len → s.len + 1 = s1.max → plist_del (some s1) (min i s.len) = none) := by
  have hg' := (growth_succeeds_iff a s).1 hg
  by_cases hge : s.len ≤ i
  · obtain ⟨s1, e1, i1, l1, _, _, q1, q2⟩ := plist_add_good hi hp hg'
    refine ⟨s1, by rw [plist_ins_ge hge]; exact e1, fun _ => ?_, fun h => by omega⟩
    rw [Nat.min_eq_right hge]
    obtain ⟨r, s2, e2⟩ := plist_del_defined (i := s.len) i1 (by omega) (Or.inr (by omega))
    obtain ⟨s2', i0, h2, _, l2, _, _, _, hi0, hr, q⟩ := plist_del_result i1 (by omega) e2
    cases h2
    have hi0' : i0 = s.len := by omega
    rw [hi0', q1] at hr
    cases hr
    refine ⟨s2, e2, by omega, fun k hk => ?_⟩
    rw [q k (by omega), hi0', if_pos hk, q2 k hk]
  · have hlt : i < s.len := Nat.lt_of_not_le hge
    obtain ⟨s1, e1, i1, l1, _, _, q1, q2, q3⟩ := plist_ins_good hi hp hlt hg'
    refine ⟨s1, e1, fun h => ?_, fun _ hfull => ?_⟩
    · rw [Nat.min_eq_left (Nat.le_of_lt hlt)]
      have hroom : s1.len < s1.max := by omega
      obtain ⟨r, s2, e2⟩ := plist_del_defined (i := i) i1 (by omega) (Or.inl hroom)
      obtain ⟨s2', i0, h2, _, l2, _, _, _, hi0, hr, q⟩ := plist_del_result i1 (by omega) e2
      cases h2
      have hi0' : i0 = i := by omega
      rw [hi0', q1] at hr
      cases hr
      refine ⟨s2, e2, by omega, fun k hk => ?_⟩
      rw [q k (by omega), hi0']
      by_cases hki : k < i
      · rw [if_pos hki, q2 k hki]
      · rw [if_neg hki, q3 k (by omega) hk]
    · rw [Nat.min_eq_left (Nat.le_of_lt hlt)]
      exact plist_del_shift_full (i := i) i1 (by omega) (by omega)

/-- C20: on the list of nine handles in a ten-slot block, `plist_ins(l, 42, 0)`
returns `PLIST_GOOD` and fills the block (`len = max = 10`, no growth); the
immediately following `plist_del(l, min(0, 9))` then has undefined behaviour (its
`memmove` reads slot 10) instead of returning 42 and restoring the nine handles. -/
theorem C20_del_after_filling_ins_overruns :
    initialised sample_nine ∧ sample_nine.len ≤ sample_nine.max ∧ (42 : Handle) ≠ NULL ∧
    plist_ins grant (some sample_nine) 42 0 =
      some (PLIST_GOOD, some ⟨some [42, 1, 2, 3, 4, 5, 6, 7, 8, 9], 10, 10,
        some FreeFn.def_free⟩) ∧
    plist_del (some ⟨some [42, 1, 2, 3, 4, 5, 6, 7, 8, 9], 10, 10, some FreeFn.def_free⟩)
      (min 0 sample_nine.len) = none := by
  decide

end PtrList
